import Mathlib

set_option maxRecDepth 100000

/-!
Verification of the IPTV gateway backend (`web/backend/app`): a shallow
embedding, in Lean, of the pure cores of the cache/store layer, the HLS
manifest rewriting, the health worker classification and scheduling, the
EPG channel mapper, and the local-segment path check, together with
theorems about them.

Strings are modelled at the level of Unicode code points; the byte-level
operations (MD5, base64) act on `List Nat` byte lists, and `strBytes`
maps a character to its code point, which agrees with the UTF-8 byte
encoding exactly on ASCII strings.  Theorems that depend on this carry an
ASCII hypothesis.
-/

namespace IPTV

/-- Code points of a string; equals its UTF-8 bytes when ASCII. -/
def strBytes (s : String) : List Nat := s.data.map Char.toNat

/-- All characters of the string are ASCII. -/
def isAsciiStr (s : String) : Prop := ∀ c ∈ s.data, c.toNat < 128

instance (s : String) : Decidable (isAsciiStr s) := by
  unfold isAsciiStr; infer_instance

/-! ### MD5 (`hashlib.md5`), on byte lists, arithmetic mod 2^32 -/

/-- Per-round left-rotation amounts of MD5. -/
def md5S : List Nat :=
  [7,12,17,22,7,12,17,22,7,12,17,22,7,12,17,22,
   5,9,14,20,5,9,14,20,5,9,14,20,5,9,14,20,
   4,11,16,23,4,11,16,23,4,11,16,23,4,11,16,23,
   6,10,15,21,6,10,15,21,6,10,15,21,6,10,15,21]

/-- The 64 MD5 sine-derived round constants. -/
def md5K : List Nat :=
  [0xd76aa478, 0xe8c7b756, 0x242070db, 0xc1bdceee,
   0xf57c0faf, 0x4787c62a, 0xa8304613, 0xfd469501,
   0x698098d8, 0x8b44f7af, 0xffff5bb1, 0x895cd7be,
   0x6b901122, 0xfd987193, 0xa679438e, 0x49b40821,
   0xf61e2562, 0xc040b340, 0x265e5a51, 0xe9b6c7aa,
   0xd62f105d, 0x02441453, 0xd8a1e681, 0xe7d3fbc8,
   0x21e1cde6, 0xc33707d6, 0xf4d50d87, 0x455a14ed,
   0xa9e3e905, 0xfcefa3f8, 0x676f02d9, 0x8d2a4c8a,
   0xfffa3942, 0x8771f681, 0x6d9d6122, 0xfde5380c,
   0xa4beea44, 0x4bdecfa9, 0xf6bb4b60, 0xbebfbc70,
   0x289b7ec6, 0xeaa127fa, 0xd4ef3085, 0x04881d05,
   0xd9d4d039, 0xe6db99e5, 0x1fa27cf8, 0xc4ac5665,
   0xf4292244, 0x432aff97, 0xab9423a7, 0xfc93a039,
   0x655b59c3, 0x8f0ccc92, 0xffeff47d, 0x85845dd1,
   0x6fa87e4f, 0xfe2ce6e0, 0xa3014314, 0x4e0811a1,
   0xf7537e82, 0xbd3af235, 0x2ad7d2bb, 0xeb86d391]

def m32 : Nat := 4294967296

/-- 32-bit complement (valid for `x < 2^32`). -/
def not32 (x : Nat) : Nat := Nat.xor x 4294967295

/-- 32-bit left rotation (valid for `x < 2^32`, `0 < s < 32`). -/
def rotl32 (x s : Nat) : Nat := (x * 2 ^ s) % m32 + x / 2 ^ (32 - s)

/-- MD5 round mixing function, by round index. -/
def md5F (i b c d : Nat) : Nat :=
  if i < 16 then Nat.lor (Nat.land b c) (Nat.land (not32 b) d)
  else if i < 32 then Nat.lor (Nat.land d b) (Nat.land (not32 d) c)
  else if i < 48 then Nat.xor (Nat.xor b c) d
  else Nat.xor c (Nat.lor b (not32 d))

/-- MD5 message word index, by round index. -/
def md5G (i : Nat) : Nat :=
  if i < 16 then i
  else if i < 32 then (5 * i + 1) % 16
  else if i < 48 then (3 * i + 5) % 16
  else (7 * i) % 16

/-- Read the `g`-th little-endian 32-bit word of a 64-byte block. -/
def md5Word (block : List Nat) (g : Nat) : Nat :=
  block.getD (4 * g) 0 + 256 * block.getD (4 * g + 1) 0 +
    65536 * block.getD (4 * g + 2) 0 + 16777216 * block.getD (4 * g + 3) 0

/-- One MD5 round on the `(a, b, c, d)` state. -/
def md5Round (block : List Nat) (st : Nat × Nat × Nat × Nat) (i : Nat) :
    Nat × Nat × Nat × Nat :=
  let a := st.1
  let b := st.2.1
  let c := st.2.2.1
  let d := st.2.2.2
  let f := (md5F i b c d + a + md5K.getD i 0 + md5Word block (md5G i)) % m32
  (d, (b + rotl32 f (md5S.getD i 0)) % m32, b, c)

/-- Process one 64-byte block. -/
def md5Block (st : Nat × Nat × Nat × Nat) (block : List Nat) :
    Nat × Nat × Nat × Nat :=
  let r := (List.range 64).foldl (md5Round block) st
  ((st.1 + r.1) % m32, (st.2.1 + r.2.1) % m32,
   (st.2.2.1 + r.2.2.1) % m32, (st.2.2.2 + r.2.2.2) % m32)

/-- MD5 padding: `0x80`, zeros to 56 mod 64, then the 64-bit LE bit length. -/
def md5Pad (msg : List Nat) : List Nat :=
  let len := msg.length
  let zeros := (119 - len % 64) % 64
  let bl := (len * 8) % 2 ^ 64
  msg ++ [128] ++ List.replicate zeros 0 ++
    [bl % 256, bl / 256 % 256, bl / 2 ^ 16 % 256, bl / 2 ^ 24 % 256,
     bl / 2 ^ 32 % 256, bl / 2 ^ 40 % 256, bl / 2 ^ 48 % 256, bl / 2 ^ 56 % 256]

/-- Split a byte list into 64-byte chunks (fuel-based structural recursion;
`fuel ≥ l.length` suffices since each step consumes at least one byte). -/
def chunks64Aux : Nat → List Nat → List (List Nat)
  | 0, _ => []
  | _, [] => []
  | fuel + 1, a :: t => ((a :: t).take 64) :: chunks64Aux fuel ((a :: t).drop 64)

/-- Split a byte list into 64-byte chunks. -/
def chunks64 (l : List Nat) : List (List Nat) := chunks64Aux l.length l

/-- Little-endian bytes of a 32-bit word. -/
def wordLE (w : Nat) : List Nat :=
  [w % 256, w / 256 % 256, w / 65536 % 256, w / 16777216 % 256]

/-- The 16-byte MD5 digest of a byte list. -/
def md5Digest (msg : List Nat) : List Nat :=
  let st := (chunks64 (md5Pad msg)).foldl md5Block
    (0x67452301, 0xefcdab89, 0x98badcfe, 0x10325476)
  wordLE st.1 ++ wordLE st.2.1 ++ wordLE st.2.2.1 ++ wordLE st.2.2.2

/-- Lowercase hex digit. -/
def hexDigit (n : Nat) : Char :=
  if n < 10 then Char.ofNat (48 + n) else Char.ofNat (87 + n)

/-- Two-digit lowercase hex of a byte. -/
def byteHex (b : Nat) : List Char := [hexDigit (b / 16), hexDigit (b % 16)]

/-- `hashlib.md5(x).hexdigest()`. -/
def md5Hex (msg : List Nat) : String := ⟨(md5Digest msg).flatMap byteHex⟩

/-! ### URL-safe base64 (`base64.urlsafe_b64encode` / `urlsafe_b64decode`) -/

/-- The URL-safe base64 alphabet, by 6-bit value. -/
def b64c (n : Nat) : Char :=
  if n < 26 then Char.ofNat (65 + n)
  else if n < 52 then Char.ofNat (97 + (n - 26))
  else if n < 62 then Char.ofNat (48 + (n - 52))
  else if n = 62 then Char.ofNat 45
  else Char.ofNat 95

/-- Inverse of the URL-safe base64 alphabet. -/
def b64v (c : Char) : Option Nat :=
  if 65 ≤ c.toNat ∧ c.toNat ≤ 90 then some (c.toNat - 65)
  else if 97 ≤ c.toNat ∧ c.toNat ≤ 122 then some (26 + (c.toNat - 97))
  else if 48 ≤ c.toNat ∧ c.toNat ≤ 57 then some (52 + (c.toNat - 48))
  else if c.toNat = 45 then some 62
  else if c.toNat = 95 then some 63
  else none

/-- URL-safe base64 encoding of a byte list, with `=`-padding. -/
def b64encodeBytes : List Nat → List Char
  | [] => []
  | [b1] => [b64c (b1 / 4), b64c (b1 % 4 * 16), '=', '=']
  | [b1, b2] => [b64c (b1 / 4), b64c (b1 % 4 * 16 + b2 / 16), b64c (b2 % 16 * 4), '=']
  | b1 :: b2 :: b3 :: rest =>
    b64c (b1 / 4) :: b64c (b1 % 4 * 16 + b2 / 16) :: b64c (b2 % 16 * 4 + b3 / 64) ::
      b64c (b3 % 64) :: b64encodeBytes rest

/-- URL-safe base64 decoding of a properly padded character list. -/
def b64decodeBytes : List Char → Option (List Nat)
  | [] => some []
  | c1 :: c2 :: c3 :: c4 :: rest =>
    match b64v c1, b64v c2 with
    | some v1, some v2 =>
      if c3 = '=' then
        if c4 = '=' ∧ rest = [] then some [v1 * 4 + v2 / 16] else none
      else
        match b64v c3 with
        | some v3 =>
          if c4 = '=' then
            if rest = [] then some [v1 * 4 + v2 / 16, v2 % 16 * 16 + v3 / 4] else none
          else
            match b64v c4, b64decodeBytes rest with
            | some v4, some tl =>
              some ((v1 * 4 + v2 / 16) :: (v2 % 16 * 16 + v3 / 4) :: (v3 % 4 * 64 + v4) :: tl)
            | _, _ => none
        | none => none
    | _, _ => none
  | _ => none

/-- `base64.urlsafe_b64encode(s.encode()).decode()` (ASCII-faithful). -/
def b64encodeStr (s : String) : String := ⟨b64encodeBytes (strBytes s)⟩

/-- `base64.urlsafe_b64decode(s).decode()` (ASCII-faithful). -/
def b64decodeStr (s : String) : Option String :=
  (b64decodeBytes s.data).map (fun bs => ⟨bs.map Char.ofNat⟩)

/-! ### Python string helpers -/

/-- Python `str.strip()` whitespace set (ASCII part). -/
def pyIsSpace (c : Char) : Bool :=
  c = ' ' || c = '\t' || c = '\n' || c = '\r' || c.toNat = 11 || c.toNat = 12

/-- Python `str.strip()`. -/
def pyStrip (s : String) : String :=
  ⟨((s.data.dropWhile pyIsSpace).reverse.dropWhile pyIsSpace).reverse⟩

/-- `pre` is a prefix of `s` (Python `str.startswith`). -/
def startsWithStr (pre s : String) : Bool := pre.data.isPrefixOf s.data

/-! ### HLS manifest rewriting
(`StreamProxyService._rewrite_manifest` / `._rewrite_uri_attribute`)

`join` abstracts `urllib.parse.urljoin`, and `urlBase` is the
origin manifest's directory (computed in the source from the final URL via
`urlparse`); both are parameters of the model. -/

/-- The literal `URI="` that triggers attribute rewriting. -/
def uriPat : List Char := ['U', 'R', 'I', '=', '"']

/-- Substring containment on character lists (Python `pat in s`). -/
def containsSub (pat : List Char) : List Char → Bool
  | [] => pat.isEmpty
  | c :: rest => pat.isPrefixOf (c :: rest) || containsSub pat rest

/-- Does the list start with the literal `URI="`? -/
def uriPrefixAt (l : List Char) : Bool :=
  match l with
  | a :: b :: c :: d :: e :: _ =>
    decide (a = 'U') && decide (b = 'R') && decide (c = 'I') &&
      decide (d = '=') && decide (e = '"')
  | _ => false

/-- First `URI="([^"]+)"` match: the content of the capture group, if any
(the regex `re.search` used in `_rewrite_uri_attribute`). -/
def uriSearch : List Char → Option (List Char)
  | [] => none
  | c :: rest =>
    if uriPrefixAt (c :: rest) then
      let after := (c :: rest).drop 5
      let content := after.takeWhile (fun ch => ch ≠ '"')
      if content.isEmpty then uriSearch rest
      else if content.length < after.length then some content
      else uriSearch rest
    else uriSearch rest

/-- Replace every non-overlapping `URI="[^"]+"` occurrence by
`URI="<proxy>"` (the `re.sub` in `_rewrite_uri_attribute`); fuel-based so
that it reduces in the kernel (`fuel ≥ length` suffices). -/
def uriSubAllAux (proxy : List Char) : Nat → List Char → List Char
  | 0, l => l
  | _, [] => []
  | fuel + 1, c :: rest =>
    if uriPrefixAt (c :: rest) then
      let after := (c :: rest).drop 5
      let content := after.takeWhile (fun ch => ch ≠ '"')
      if ¬ content.isEmpty ∧ content.length < after.length then
        uriPat ++ proxy ++ '"' :: uriSubAllAux proxy fuel (after.drop (content.length + 1))
      else c :: uriSubAllAux proxy fuel rest
    else c :: uriSubAllAux proxy fuel rest

def uriSubAll (proxy : List Char) (l : List Char) : List Char :=
  uriSubAllAux proxy l.length l

/-- The proxy URL emitted for an encoded origin URL. -/
def proxyUrl (baseUrl streamId enc : String) : String :=
  baseUrl ++ "/api/streams/" ++ streamId ++ "/segment/" ++ enc

/-- The absolute URL a `URI="..."` attribute value resolves to
(`_rewrite_uri_attribute` resolves unless the value starts with `http`). -/
def uriFullUrl (join : String → String → String) (urlBase u : String) : String :=
  if startsWithStr "http" u then u else join urlBase u

/-- `StreamProxyService._rewrite_uri_attribute`. -/
def rewriteUriAttribute (join : String → String → String)
    (urlBase streamId baseUrl line : String) : String :=
  match uriSearch line.data with
  | none => line
  | some content =>
    let uri : String := ⟨content⟩
    let proxy := proxyUrl baseUrl streamId (b64encodeStr (uriFullUrl join urlBase uri))
    ⟨uriSubAll proxy.data line.data⟩

/-- The absolute origin URL a non-comment manifest line denotes. -/
def lineFullUrl (join : String → String → String) (urlBase line : String) : String :=
  if startsWithStr "http://" line || startsWithStr "https://" line then line
  else join urlBase line

/-- One line of `StreamProxyService._rewrite_manifest`'s loop. -/
def rewriteLine (join : String → String → String)
    (urlBase streamId baseUrl line0 : String) : String :=
  let line := pyStrip line0
  if line.data.isEmpty then line
  else if startsWithStr "#" line then
    if containsSub uriPat line.data then
      rewriteUriAttribute join urlBase streamId baseUrl line
    else line
  else proxyUrl baseUrl streamId (b64encodeStr (lineFullUrl join urlBase line))

/-- All lines of `StreamProxyService._rewrite_manifest`. -/
def rewriteLines (join : String → String → String)
    (urlBase streamId baseUrl : String) (lines : List String) : List String :=
  lines.map (rewriteLine join urlBase streamId baseUrl)

/-- `StreamProxyService._rewrite_manifest` (split on newlines, rewrite each
line, rejoin). -/
def rewriteManifest (join : String → String → String)
    (urlBase streamId baseUrl content : String) : String :=
  String.intercalate "\n" (rewriteLines join urlBase streamId baseUrl (content.splitOn "\n"))

/-- The last `/`-separated segment of a string (used to state the manifest
round-trip property). -/
def lastSegment (s : String) : String :=
  ⟨(s.data.reverse.takeWhile (fun c => c ≠ '/')).reverse⟩

/-! ### Filesystem paths (`pathlib`), as used by `get_local_segment`
(`routers/streams.py`) and `TranscoderService.TRANSCODE_DIR`
(`services/transcoder.py`).

A path is a flag (absolute?) plus a list of components; route parameters
never contain `/`, so `Path.__truediv__` with a single component is plain
append. -/

structure PyPath where
  absolute : Bool
  parts : List String
deriving DecidableEq, Repr

/-- `Path.__truediv__` with a slash-free component. -/
def pathJoin (p : PyPath) (seg : String) : PyPath :=
  ⟨p.absolute, p.parts ++ [seg]⟩

/-- Normalize `.` and `..` components left to right (symlink-free
`Path.resolve`). -/
def normalizeParts (acc : List String) : List String → List String
  | [] => acc
  | p :: rest =>
    if p = "." ∨ p = "" then normalizeParts acc rest
    else if p = ".." then normalizeParts acc.dropLast rest
    else normalizeParts (acc ++ [p]) rest

/-- `Path.resolve()`: prepend the working directory (a component list; `[]`
is the filesystem root) to a relative path and normalize. -/
def pathResolve (cwd : List String) (p : PyPath) : PyPath :=
  if p.absolute then ⟨true, normalizeParts [] p.parts⟩
  else ⟨true, normalizeParts cwd p.parts⟩

/-- `PurePath.parts`, including the `/` anchor of an absolute path. -/
def anchoredParts (p : PyPath) : List String :=
  if p.absolute then "/" :: p.parts else p.parts

/-- `PurePath.is_relative_to`: the other path's parts are a prefix. -/
def isRelativeTo (a b : PyPath) : Bool :=
  (anchoredParts b).isPrefixOf (anchoredParts a)

/-- `TranscoderService.TRANSCODE_DIR = Path("data/hls_transcodes")` — a
relative path. -/
def TRANSCODE_DIR : PyPath := ⟨false, ["data", "hls_transcodes"]⟩

inductive LocalSegmentResult where
  | forbidden
  | notFound
  | served (p : PyPath)
deriving DecidableEq, Repr

/-- The `/api/streams/.../local/...` handler `get_local_segment`
(`routers/streams.py` lines 86-110): builds
`TRANSCODE_DIR / stream_id / filename`, 403s unless the resolved path
`is_relative_to` the (unresolved) `TRANSCODE_DIR / stream_id`, then 404s
on a missing file, else serves the file.  `fileExists` abstracts the
filesystem (queried at the resolved location). -/
def getLocalSegment (cwd : List String) (fileExists : List String → Bool)
    (streamId filename : String) : LocalSegmentResult :=
  let path := pathJoin (pathJoin TRANSCODE_DIR streamId) filename
  let base := pathJoin TRANSCODE_DIR streamId
  if ¬ isRelativeTo (pathResolve cwd path) base then .forbidden
  else if ¬ fileExists (pathResolve cwd path).parts then .notFound
  else .served path

/-! ### Store rows (`cache.py`); only the columns the claims mention are
modelled.  SQLite timestamp text columns are modelled as integers (seconds)
ordered like the ISO text they hold. -/

structure ChannelRow where
  id : String
  name : String
  closed : Option String
  has_streams : Nat
  stream_count : Nat
deriving DecidableEq, Repr

structure StreamRow where
  id : String
  channel_id : Option String
  feed_id : Option String
  title : String
  url : String
  referrer : Option String
  user_agent : Option String
  quality : Option String
  health_status : String
  health_checked_at : Option Int
  health_response_ms : Option Nat
  health_error : Option String
  next_check_due : Option Int
deriving DecidableEq, Repr

structure DB where
  channels : List ChannelRow
  streams : List StreamRow
deriving DecidableEq, Repr

/-- Number of stream rows attached to a channel id (`NULL` never matches). -/
def streamCountFor (streams : List StreamRow) (cid : String) : Nat :=
  (streams.filter (fun s => decide (s.channel_id = some cid))).length

/-- `CacheService.update_channel_stream_counts`: reset every channel to
`(0, 0)`, then set `has_streams = 1` and `stream_count` to the per-channel
count for the channels whose id occurs among `streams.channel_id`. -/
def update_channel_stream_counts (db : DB) : DB :=
  { db with channels := db.channels.map (fun c =>
      if db.streams.any (fun s => decide (s.channel_id = some c.id)) then
        { c with has_streams := 1, stream_count := streamCountFor db.streams c.id }
      else
        { c with has_streams := 0, stream_count := 0 }) }

/-- Byte-order comparison of names (SQLite `ORDER BY name`, BINARY
collation; on code points, which matches UTF-8 byte order). -/
def nameLe (a b : ChannelRow) : Bool := decide (a.name.data ≤ b.name.data)

/-- The `WHERE` clause of `get_channels` with `playable_only=True` and no
other filters: `closed IS NULL AND has_streams = 1`. -/
def playablePred (c : ChannelRow) : Bool :=
  decide (c.closed = none) && decide (c.has_streams = 1)

/-- `CacheService.get_channels(playable_only=True)` with no other filters:
the total count and the name-ordered page `LIMIT per_page OFFSET
(page-1)*per_page`.  (The health hydration of the returned JSON blobs does
not change which channels are returned and is not modelled.) -/
def get_channels_playable (db : DB) (page per_page : Nat) :
    List ChannelRow × Nat :=
  let filtered := db.channels.filter playablePred
  let sorted := filtered.mergeSort nameLe
  ((sorted.drop ((page - 1) * per_page)).take per_page, filtered.length)

/-- The eligibility test of the effective `get_unchecked_streams`
(`cache.py` lines 868-881): `health_checked_at IS NULL OR health_checked_at
< datetime('now', '-1 hour')`. -/
def uncheckedEligible (now : Int) (s : StreamRow) : Bool :=
  match s.health_checked_at with
  | none => true
  | some t => decide (t < now - 3600)

/-- `ORDER BY health_checked_at ASC NULLS FIRST`. -/
def nullsFirstLe (a b : StreamRow) : Bool :=
  match a.health_checked_at, b.health_checked_at with
  | none, _ => true
  | some _, none => false
  | some x, some y => decide (x ≤ y)

/-- The row dictionary produced by the effective `get_unchecked_streams`:
its `SELECT` names exactly `id, url, referrer, user_agent, channel_id`. -/
def projUnchecked (s : StreamRow) : List (String × Option String) :=
  [("id", some s.id), ("url", some s.url), ("referrer", s.referrer),
   ("user_agent", s.user_agent), ("channel_id", s.channel_id)]

/-- The effective `CacheService.get_unchecked_streams` (`cache.py` lines
868-881; the later of the two definitions in the class body). -/
def get_unchecked_streams (db : DB) (now : Int) (limit : Nat) :
    List (List (String × Option String)) :=
  (((db.streams.filter (uncheckedEligible now)).mergeSort nullsFirstLe).take limit).map
    projUnchecked

/-! ### `store_streams` and the M3U import path (claim C8) -/

/-- A catalog stream dictionary as passed to `store_streams`; `channel =
none` models JSON `null` (which Python renders as the string `None` inside
the hashed f-string). -/
structure StreamInput where
  url : String
  channel : Option String
  feed : Option String
  title : String
  referrer : Option String
  user_agent : Option String
  quality : Option String
deriving DecidableEq, Repr

/-- The id `store_streams` computes:
`hashlib.md5(f"{url}{channel}").hexdigest()[:12]`. -/
def storeStreamId (inp : StreamInput) : String :=
  (md5Hex (strBytes (inp.url ++ inp.channel.getD "None"))).take 12

/-- The row `store_streams` writes (health columns take their SQL
defaults; the JSON `data` blob is not modelled). -/
def rowOfInput (inp : StreamInput) : StreamRow :=
  { id := storeStreamId inp, channel_id := inp.channel, feed_id := inp.feed,
    title := inp.title, url := inp.url, referrer := inp.referrer,
    user_agent := inp.user_agent, quality := inp.quality,
    health_status := "unknown", health_checked_at := none,
    health_response_ms := none, health_error := none, next_check_due := none }

/-- `INSERT OR REPLACE` keyed on the primary key `id`: replace the
conflicting row in place, else append. -/
def insertOrReplaceStream (rows : List StreamRow) (r : StreamRow) :
    List StreamRow :=
  if rows.any (fun x => decide (x.id = r.id)) then
    rows.map (fun x => if x.id = r.id then r else x)
  else rows ++ [r]

/-- `CacheService.store_streams`. -/
def store_streams (db : DB) (batch : List StreamInput) : DB :=
  { db with streams :=
      batch.foldl (fun rows inp => insertOrReplaceStream rows (rowOfInput inp)) db.streams }

/-- The id `M3UParser.parse_file` computes (`m3u_parser.py` lines 84-86):
`hashlib.md5(f"{url}{country}{provider or ''}").hexdigest()[:12]`. -/
def m3uStreamId (url country : String) (provider : Option String) : String :=
  (md5Hex (strBytes (url ++ country ++ provider.getD ""))).take 12

/-- A parsed M3U stream entry, as handed to `store_m3u_streams` (the id was
computed by the parser). -/
structure M3uStreamInput where
  id : String
  channel_id : Option String
  feed : Option String
  title : String
  url : String
  referrer : Option String
  user_agent : Option String
  quality : Option String
deriving DecidableEq, Repr

def rowOfM3uInput (inp : M3uStreamInput) : StreamRow :=
  { id := inp.id, channel_id := inp.channel_id, feed_id := inp.feed,
    title := inp.title, url := inp.url, referrer := inp.referrer,
    user_agent := inp.user_agent, quality := inp.quality,
    health_status := "unknown", health_checked_at := none,
    health_response_ms := none, health_error := none, next_check_due := none }

/-- `CacheService.store_m3u_streams`. -/
def store_m3u_streams (db : DB) (batch : List M3uStreamInput) : DB :=
  { db with streams :=
      batch.foldl (fun rows inp => insertOrReplaceStream rows (rowOfM3uInput inp)) db.streams }

/-! ### Health worker (`health_worker.py`) -/

/-- Outcome of one HTTP request made by a probe. -/
inductive HttpResult where
  | status (code : Nat)
  | timeoutExc
  | connectExc
  | otherExc (msg : String)
deriving DecidableEq, Repr

/-- A request issued by `_test_stream` (method and optional Range header). -/
structure ProbeRequest where
  method : String
  range : Option String
deriving DecidableEq, Repr

/-- The result dictionary of `_test_stream`. -/
structure TestResult where
  status : String
  response_ms : Option Nat
  error : Option String
deriving DecidableEq, Repr

/-- Classification of a response status code (`_test_stream` lines
272-292). -/
def classifyStatus (elapsed : Nat) (code : Nat) : TestResult :=
  if code = 200 ∨ code = 206 then ⟨"working", some elapsed, none⟩
  else if code = 403 then
    ⟨"warning", some elapsed, some "403 Forbidden (possible geo-block)"⟩
  else if code = 404 then ⟨"failed", none, some "404 Not Found"⟩
  else ⟨"failed", none, some ("HTTP " ++ toString code)⟩

/-- Classification of a whole request outcome, including the exception
handlers of `_test_stream` (lines 294-308). -/
def classifyOutcome (elapsed : Nat) : HttpResult → TestResult
  | .status c => classifyStatus elapsed c
  | .timeoutExc => ⟨"failed", none, some "Timeout"⟩
  | .connectExc => ⟨"failed", none, some "Connection refused"⟩
  | .otherExc m => ⟨"failed", none, some (m.take 100)⟩

/-- `HealthWorker._test_stream`: a HEAD probe, retried once as a
`Range: bytes=0-0` GET on 405, classified as above; returns the result and
the requests issued.  `head`/`get` are the outcomes of the two possible
requests, `elapsed` the measured milliseconds. -/
def testStream (elapsed : Nat) (head get : HttpResult) :
    TestResult × List ProbeRequest :=
  match head with
  | .status c =>
    if c = 405 then
      (classifyOutcome elapsed get, [⟨"HEAD", none⟩, ⟨"GET", some "bytes=0-0"⟩])
    else (classifyStatus elapsed c, [⟨"HEAD", none⟩])
  | .timeoutExc => (classifyOutcome elapsed .timeoutExc, [⟨"HEAD", none⟩])
  | .connectExc => (classifyOutcome elapsed .connectExc, [⟨"HEAD", none⟩])
  | .otherExc m => (classifyOutcome elapsed (.otherExc m), [⟨"HEAD", none⟩])

/-- The recheck delay, in seconds, computed by `_process_batch` (lines
139-160) from a probe result. -/
def nextCheckDelta (result : TestResult) : Int :=
  let error := (result.error.getD "").data
  if result.status = "working" then 6 * 3600
  else if result.status = "warning" then 7 * 86400
  else if containsSub "404".data error || containsSub "Not Found".data error then 7 * 86400
  else if containsSub "Timeout".data error then 3600
  else if containsSub "Connection refused".data error then 86400
  else 3600

/-! #### The duplicated `update_stream_health` definitions (claim C1)

`CacheService` defines `update_stream_health` twice; Python keeps the
later binding.  The parameter lists below are copied from the two
definitions, and `effectiveUpdateStreamHealthParams` applies Python's
last-definition-wins rule. -/

/-- Parameters of the first definition (`cache.py` lines 184-191). -/
def updateStreamHealthParamsFirst : List String :=
  ["stream_id", "status", "response_ms", "error", "next_check_due"]

/-- Parameters of the second definition (`cache.py` lines 849-855). -/
def updateStreamHealthParamsSecond : List String :=
  ["stream_id", "status", "response_ms", "error"]

/-- The two class-body bindings of `update_stream_health`, in source
order. -/
def updateStreamHealthDefs : List (List String) :=
  [updateStreamHealthParamsFirst, updateStreamHealthParamsSecond]

/-- Python class-body semantics: the last binding of a name wins. -/
def effectiveUpdateStreamHealthParams : List String :=
  updateStreamHealthDefs.getLastD []

/-- The keyword arguments `_process_batch` passes when recording a probe
(`health_worker.py` lines 162-168). -/
def workerUpdateCallKwargs : List String :=
  ["stream_id", "status", "response_ms", "error", "next_check_due"]

/-- A Python call binds only if every keyword names a parameter (else
`TypeError: unexpected keyword argument`). -/
def kwargsAccepted (params kwargs : List String) : Bool :=
  kwargs.all (fun k => params.contains k)

/-- Body of the effective (second) `update_stream_health`: sets the four
health columns, touches `next_check_due` not at all. -/
def update_stream_health_effective (db : DB) (now : Int) (stream_id status : String)
    (response_ms : Option Nat) (error : Option String) : DB :=
  { db with streams := db.streams.map (fun s =>
      if s.id = stream_id then
        { s with health_status := status, health_checked_at := some now,
                 health_response_ms := response_ms, health_error := error }
      else s) }

/-- One probe-recording step of `HealthWorker._process_batch`: the worker
calls `update_stream_health` with a `next_check_due` keyword; the call
only executes if the effective signature accepts those keywords. -/
def recordProbeResult (db : DB) (now : Int) (sid : String) (result : TestResult) :
    Except String DB :=
  if kwargsAccepted effectiveUpdateStreamHealthParams workerUpdateCallKwargs then
    Except.ok (update_stream_health_effective db now sid result.status
      result.response_ms result.error)
  else
    Except.error "TypeError: update_stream_health() got an unexpected keyword argument"

/-! ### EPG channel mapper (`epg_mapping.py`)

`difflib.SequenceMatcher(None, a, b).ratio()` is abstracted as a similarity
parameter `sim : String → String → ℚ`; Python's float scores are modelled
as rationals.  The name/alt-name dictionaries are association lists in
insertion order. -/

/-- Strip one trailing `\s*(hd|sd|4k|fhd|uhd|\d+p)\s*$` occurrence from an
already lowercased character list (the first `re.sub` in
`_normalize_name`; the regex alternation resolves to the longest matching
token suffix). -/
def removeQualitySuffix (l : List Char) : List Char :=
  let r := l.reverse.dropWhile pyIsSpace
  let tokenLen : Nat :=
    if ['d', 'h', 'f'].isPrefixOf r ∨ ['d', 'h', 'u'].isPrefixOf r then 3
    else if ['d', 'h'].isPrefixOf r ∨ ['d', 's'].isPrefixOf r ∨ ['k', '4'].isPrefixOf r then 2
    else if r.head? = some 'p' ∧ ¬ ((r.drop 1).takeWhile Char.isDigit).isEmpty then
      ((r.drop 1).takeWhile Char.isDigit).length + 1
    else 0
  if tokenLen = 0 then l
  else ((r.drop tokenLen).dropWhile pyIsSpace).reverse

/-- `EPGMapper._normalize_name`: lowercase, strip a quality suffix, keep
only `[a-z0-9\s]`, then delete all whitespace. -/
def normalizeName (name : String) : String :=
  if name.data.isEmpty then "" else
  let lowered := name.data.map Char.toLower
  let l1 := removeQualitySuffix lowered
  let l2 := l1.filter (fun c =>
    decide ('a' ≤ c ∧ c ≤ 'z') || decide ('0' ≤ c ∧ c ≤ '9') || pyIsSpace c)
  ⟨l2.filter (fun c => ! pyIsSpace c)⟩

/-- Everything before the last `.` of a character list (`rsplit('.', 1)[0]`
when a dot is present). -/
def beforeLastDot (l : List Char) : List Char :=
  ((l.reverse.dropWhile (fun c => c ≠ '.')).drop 1).reverse

/-- Everything after the last `.` of a character list
(`rsplit('.', 1)[-1]`). -/
def afterLastDot (l : List Char) : List Char :=
  (l.reverse.takeWhile (fun c => c ≠ '.')).reverse

/-- `EPGMapper._extract_channel_name`: drop the `@feed` suffix, then the
`.country` suffix. -/
def extractChannelName (epgId : String) : String :=
  let base := epgId.data.takeWhile (fun c => c ≠ '@')
  if base.contains '.' then ⟨beforeLastDot base⟩ else ⟨base⟩

/-- Strip one trailing case-insensitive `DT\d?|HD|SD` (strategy 3 of
`map_channel_id`). -/
def stripDtSuffix (l : List Char) : List Char :=
  let r := l.reverse
  let rl := r.map Char.toLower
  let dropLen : Nat :=
    if (rl.head?.map Char.isDigit).getD false ∧ ['t', 'd'].isPrefixOf (rl.drop 1) then 3
    else if ['t', 'd'].isPrefixOf rl ∨ ['d', 'h'].isPrefixOf rl ∨ ['d', 's'].isPrefixOf rl then 2
    else 0
  (r.drop dropLen).reverse

/-- `EPGMapper.map_channel_id`: direct id match, feed-suffix strip, then
`DT\d?|HD|SD` strip (with the country suffix reattached). -/
def map_channel_id (channelIds : List String) (epgId : String) : Option String :=
  if epgId.data.isEmpty then none
  else if channelIds.contains epgId then some epgId
  else
    let base : String := ⟨epgId.data.takeWhile (fun c => c ≠ '@')⟩
    if channelIds.contains base then some base
    else if base.data.contains '.' then
      let namePart := beforeLastDot base.data
      let country := afterLastDot base.data
      let simplified := stripDtSuffix namePart
      if simplified ≠ namePart then
        let simpleId : String := ⟨simplified ++ '.' :: country⟩
        if channelIds.contains simpleId then some simpleId else none
      else none
    else none

/-- First-match association lookup (Python `dict` keys are unique, so this
is dict lookup in insertion order). -/
def assocLookup (idx : List (String × String)) (k : String) : Option String :=
  (idx.find? (fun e => decide (e.1 = k))).map (fun e => e.2)

/-- The score of one name-index entry inside the fuzzy loop: the raw
similarity plus the `+0.1` country boost when the candidate channel id
contains `.<country>` (case-insensitively; an empty country string is
falsy in Python and never boosts). -/
def boostedScore (sim : String → String → ℚ) (normalized : String)
    (country : Option String) (e : String × String) : ℚ :=
  let base := sim normalized e.1
  match country with
  | some ctry =>
    if ¬ ctry.data.isEmpty ∧
        containsSub ('.' :: ctry.data.map Char.toLower) (e.2.data.map Char.toLower) then
      base + 1 / 10
    else base
  | none => base

/-- The best-candidate fold of `fuzzy_match_channel` (lines 121-133):
update on `score > best_score and score >= threshold`. -/
def fuzzyLoopAux (score : String × String → ℚ) (thr : ℚ) :
    List (String × String) → ℚ → Option String → Option String
  | [], _, best => best
  | e :: rest, bs, best =>
    if bs < score e ∧ thr ≤ score e then
      fuzzyLoopAux score thr rest (score e) (some e.2)
    else fuzzyLoopAux score thr rest bs best

/-- `EPGMapper.fuzzy_match_channel`. -/
def fuzzy_match_channel (sim : String → String → ℚ)
    (nameIdx altIdx : List (String × String)) (name : String)
    (country : Option String) (thr : ℚ) : Option String :=
  if name.data.isEmpty ∨ nameIdx.isEmpty then none
  else
    let normalized := normalizeName name
    if normalized.data.isEmpty then none
    else
      match assocLookup nameIdx normalized with
      | some cid => some cid
      | none =>
        match assocLookup altIdx normalized with
        | some cid => some cid
        | none => fuzzyLoopAux (boostedScore sim normalized country) thr nameIdx 0 none

/-- The country `batch_map_epg_channels` extracts for the fuzzy call:
`epg_id.split('@')[0].rsplit('.', 1)[-1]` when the full id contains a
dot. -/
def epgCountryOf (epgId : String) : Option String :=
  if epgId.data.contains '.' then
    some ⟨afterLastDot (epgId.data.takeWhile (fun c => c ≠ '@'))⟩
  else none

/-- One iteration of `batch_map_epg_channels` with `use_fuzzy=True`:
direct mapping first, fuzzy (threshold 0.8) only when it fails. -/
def batchMapOne (sim : String → String → ℚ) (channelIds : List String)
    (nameIdx altIdx : List (String × String)) (epgId : String) : Option String :=
  match map_channel_id channelIds epgId with
  | some r => some r
  | none =>
    fuzzy_match_channel sim nameIdx altIdx (extractChannelName epgId)
      (epgCountryOf epgId) (4 / 5)

/-- Maximum of a rational list (`none` on the empty list). -/
def maxQ : List ℚ → Option ℚ
  | [] => none
  | x :: xs =>
    match maxQ xs with
    | none => some x
    | some m => some (max x m)

/-- The selection the claim describes, written from its words: among the
name-index entries whose boosted score is at or above the threshold, the
first entry attaining the maximal score. -/
def specFuzzyPick (score : String × String → ℚ) (thr : ℚ)
    (idx : List (String × String)) : Option String :=
  match maxQ ((idx.filter (fun e => decide (thr ≤ score e))).map score) with
  | none => none
  | some m => (idx.find? (fun e => decide (score e = m))).map (fun e => e.2)

/-! ## Helper lemmas -/

theorem b64v_b64c {n : Nat} (h : n < 64) : b64v (b64c n) = some n := by
  have key : ∀ m : Fin 64, b64v (b64c m.val) = some m.val := by decide
  exact key ⟨n, h⟩

theorem b64c_ne_pad {n : Nat} (h : n < 64) : b64c n ≠ '=' := by
  have key : ∀ m : Fin 64, b64c m.val ≠ '=' := by decide
  exact key ⟨n, h⟩

theorem char_toNat_ofNat {n : Nat} (h : n < 55296) : (Char.ofNat n).toNat = n := by
  have hv : n.isValidChar := Or.inl h
  rw [Char.ofNat, dif_pos hv]
  rfl

theorem b64c_ne_slash (n : Nat) : b64c n ≠ '/' := by
  have hslash : ('/').toNat = 47 := by decide
  unfold b64c
  split_ifs with h1 h2 h3 h4 <;> intro he <;>
    rw [← he] at hslash <;> rw [char_toNat_ofNat (by omega)] at hslash <;> omega

theorem b64encode_ne_slash : ∀ (bs : List Nat), ∀ c ∈ b64encodeBytes bs, c ≠ '/'
  | [] => by simp [b64encodeBytes]
  | [b1] => by
    simp only [b64encodeBytes, List.mem_cons, List.not_mem_nil, or_false]
    rintro c (rfl | rfl | rfl | rfl) <;> first | exact b64c_ne_slash _ | decide
  | [b1, b2] => by
    simp only [b64encodeBytes, List.mem_cons, List.not_mem_nil, or_false]
    rintro c (rfl | rfl | rfl | rfl) <;> first | exact b64c_ne_slash _ | decide
  | b1 :: b2 :: b3 :: rest => by
    simp only [b64encodeBytes, List.mem_cons]
    rintro c (rfl | rfl | rfl | rfl | hm)
    · exact b64c_ne_slash _
    · exact b64c_ne_slash _
    · exact b64c_ne_slash _
    · exact b64c_ne_slash _
    · exact b64encode_ne_slash rest c hm

theorem b64_roundtrip_bytes :
    ∀ (bs : List Nat), (∀ b ∈ bs, b < 256) →
      b64decodeBytes (b64encodeBytes bs) = some bs
  | [], _ => rfl
  | [b1], h => by
    have hb1 : b1 < 256 := h b1 (by simp)
    have h1 : b1 / 4 < 64 := by omega
    have h2 : b1 % 4 * 16 < 64 := by omega
    simp only [b64encodeBytes, b64decodeBytes, b64v_b64c h1, b64v_b64c h2, and_self,
      if_true, Option.some.injEq, List.cons.injEq, and_true]
    omega
  | [b1, b2], h => by
    have hb1 : b1 < 256 := h b1 (by simp)
    have hb2 : b2 < 256 := h b2 (by simp)
    have h1 : b1 / 4 < 64 := by omega
    have h2 : b1 % 4 * 16 + b2 / 16 < 64 := by omega
    have h3 : b2 % 16 * 4 < 64 := by omega
    simp only [b64encodeBytes, b64decodeBytes, b64v_b64c h1, b64v_b64c h2, b64v_b64c h3,
      b64c_ne_pad h3, if_false, if_true, and_self, Option.some.injEq, List.cons.injEq,
      and_true]
    constructor <;> omega
  | b1 :: b2 :: b3 :: rest, h => by
    have hb1 : b1 < 256 := h b1 (by simp)
    have hb2 : b2 < 256 := h b2 (by simp)
    have hb3 : b3 < 256 := h b3 (by simp)
    have h1 : b1 / 4 < 64 := by omega
    have h2 : b1 % 4 * 16 + b2 / 16 < 64 := by omega
    have h3 : b2 % 16 * 4 + b3 / 64 < 64 := by omega
    have h4 : b3 % 64 < 64 := by omega
    have ih := b64_roundtrip_bytes rest (fun b hb => h b (by simp [hb]))
    simp only [b64encodeBytes, b64decodeBytes, b64v_b64c h1, b64v_b64c h2, b64v_b64c h3,
      b64v_b64c h4, b64c_ne_pad h3, b64c_ne_pad h4, if_false, ih, Option.some.injEq,
      List.cons.injEq, and_true, true_and]
    refine ⟨by omega, by omega, by omega⟩

theorem strBytes_lt_256 {s : String} (h : isAsciiStr s) :
    ∀ b ∈ strBytes s, b < 256 := by
  intro b hb
  obtain ⟨c, hc, rfl⟩ := List.mem_map.mp hb
  exact lt_trans (h c hc) (by norm_num)

theorem b64_roundtrip_str {s : String} (h : isAsciiStr s) :
    b64decodeStr (b64encodeStr s) = some s := by
  unfold b64decodeStr b64encodeStr
  rw [show (String.mk (b64encodeBytes (strBytes s))).data = b64encodeBytes (strBytes s) from rfl,
    b64_roundtrip_bytes (strBytes s) (strBytes_lt_256 h)]
  show some (String.mk ((strBytes s).map Char.ofNat)) = some s
  congr 1
  apply String.ext
  show (strBytes s).map Char.ofNat = s.data
  unfold strBytes
  rw [List.map_map]
  exact List.map_congr_left (fun c _ => Char.ofNat_toNat c) |>.trans (List.map_id _)

theorem takeWhile_append_stop {α : Type} (p : α → Bool) (u : List α) (b : α) (s : List α)
    (hu : ∀ x ∈ u, p x = true) (hb : p b = false) :
    (u ++ b :: s).takeWhile p = u := by
  induction u with
  | nil => simp [List.takeWhile, hb]
  | cons x t ih =>
    have hx : p x = true := hu x (by simp)
    simp only [List.cons_append, List.takeWhile_cons, hx, if_true]
    rw [ih (fun y hy => hu y (by simp [hy]))]

theorem lastSegment_concat (zs ys : List Char) (hys : ∀ c ∈ ys, c ≠ '/') :
    lastSegment ⟨(zs ++ ['/']) ++ ys⟩ = ⟨ys⟩ := by
  unfold lastSegment
  congr 1
  rw [show (String.mk ((zs ++ ['/']) ++ ys)).data = (zs ++ ['/']) ++ ys from rfl]
  rw [List.reverse_append, List.reverse_append]
  simp only [List.reverse_cons, List.reverse_nil, List.nil_append, List.append_assoc,
    List.singleton_append]
  rw [takeWhile_append_stop _ ys.reverse '/' zs.reverse
    (fun x hx => by simpa using hys x (List.mem_reverse.mp hx)) (by decide)]
  exact List.reverse_reverse ys

theorem lastSegment_proxyUrl (baseUrl streamId enc : String)
    (h : ∀ c ∈ enc.data, c ≠ '/') :
    lastSegment (proxyUrl baseUrl streamId enc) = enc := by
  have hdata : (proxyUrl baseUrl streamId enc).data =
      ((baseUrl.data ++ "/api/streams/".data ++ streamId.data ++
        ['/', 's', 'e', 'g', 'm', 'e', 'n', 't']) ++ ['/']) ++ enc.data := by
    unfold proxyUrl
    simp [String.data_append, List.append_assoc]
  calc lastSegment (proxyUrl baseUrl streamId enc)
      = lastSegment ⟨((baseUrl.data ++ "/api/streams/".data ++ streamId.data ++
          ['/', 's', 'e', 'g', 'm', 'e', 'n', 't']) ++ ['/']) ++ enc.data⟩ := by
        congr 1
        apply String.ext
        exact hdata
    _ = ⟨enc.data⟩ := lastSegment_concat _ _ h
    _ = enc := by apply String.ext; rfl

/-- The containment check of `get_local_segment` compares an absolute
resolved path against the relative `TRANSCODE_DIR / stream_id`, so it is
false for every working directory, stream id and filename. -/
theorem localSegment_check_false (cwd : List String) (sid fn : String) :
    isRelativeTo (pathResolve cwd (pathJoin (pathJoin TRANSCODE_DIR sid) fn))
      (pathJoin TRANSCODE_DIR sid) = false := rfl

/-- The `get_local_segment` handler answers 403 for every request. -/
theorem localSegment_always_forbidden (cwd : List String)
    (fe : List String → Bool) (sid fn : String) :
    getLocalSegment cwd fe sid fn = .forbidden := by
  simp [getLocalSegment, localSegment_check_false]

/-! ## Claim theorems -/

/-- C3: for every stream id and filename, a request to
`/api/streams/.../local/...` whose resolved path is not a descendant of
the transcoder directory for that stream id is rejected with 403 and no
file is served. -/
theorem C3_local_traversal_forbidden (cwd : List String)
    (fe : List String → Bool) (sid fn : String)
    (hesc : isRelativeTo (pathResolve cwd (pathJoin (pathJoin TRANSCODE_DIR sid) fn))
      (pathResolve cwd (pathJoin TRANSCODE_DIR sid)) = false) :
    getLocalSegment cwd fe sid fn = .forbidden :=
  localSegment_always_forbidden cwd fe sid fn

/-- Witness for C3 at a concrete traversal request (`filename = ".."`,
working directory `/app`, with every file present on disk). -/
theorem C3_witness :
    isRelativeTo (pathResolve ["app"] (pathJoin (pathJoin TRANSCODE_DIR "s") ".."))
      (pathResolve ["app"] (pathJoin TRANSCODE_DIR "s")) = false ∧
    getLocalSegment ["app"] (fun _ => true) "s" ".." = .forbidden :=
  ⟨by decide, C3_local_traversal_forbidden ["app"] (fun _ => true) "s" ".." (by decide)⟩

/-- C10: the `/local/...` handler compares the resolved absolute path
against the unresolved relative base `data/hls_transcodes/{stream_id}`,
so with any non-root working directory the containment check is false for
every filename and the handler returns 403 without serving a file. -/
theorem C10_local_handler_always_403 (cwd : List String) (_hcwd : cwd ≠ [])
    (fe : List String → Bool) (sid fn : String) :
    isRelativeTo (pathResolve cwd (pathJoin (pathJoin TRANSCODE_DIR sid) fn))
      (pathJoin TRANSCODE_DIR sid) = false ∧
    getLocalSegment cwd fe sid fn = .forbidden :=
  ⟨localSegment_check_false cwd sid fn, localSegment_always_forbidden cwd fe sid fn⟩

/-- Witness for C10: a legitimate existing segment `segment_000.ts` is
refused as well. -/
theorem C10_witness :
    isRelativeTo (pathResolve ["app"] (pathJoin (pathJoin TRANSCODE_DIR "s") "segment_000.ts"))
      (pathJoin TRANSCODE_DIR "s") = false ∧
    getLocalSegment ["app"] (fun _ => true) "s" "segment_000.ts" = .forbidden :=
  C10_local_handler_always_403 ["app"] (by decide) (fun _ => true) "s" "segment_000.ts"

/-- C4: after `update_channel_stream_counts`, every channel has
`has_streams = 1` exactly when some stream row carries its id, and
`stream_count` equals the number of such rows. -/
theorem C4_recompute_counts (db : DB) (c : ChannelRow)
    (hc : c ∈ (update_channel_stream_counts db).channels) :
    (c.has_streams = 1 ↔ ∃ s ∈ db.streams, s.channel_id = some c.id) ∧
    c.stream_count = streamCountFor db.streams c.id := by
  unfold update_channel_stream_counts at hc
  simp only [List.mem_map] at hc
  obtain ⟨c0, _, rfl⟩ := hc
  by_cases hany : db.streams.any (fun s => decide (s.channel_id = some c0.id)) = true
  · rw [if_pos hany]
    refine ⟨⟨fun _ => ?_, fun _ => rfl⟩, rfl⟩
    obtain ⟨s, hs, hdec⟩ := List.any_eq_true.mp hany
    exact ⟨s, hs, of_decide_eq_true hdec⟩
  · rw [if_neg hany]
    refine ⟨⟨fun h01 => absurd (show (0 : Nat) = 1 from h01) (by decide), fun hex => ?_⟩, ?_⟩
    · obtain ⟨s, hs, hcid⟩ := hex
      exact absurd (List.any_eq_true.mpr ⟨s, hs, decide_eq_true hcid⟩) hany
    · show (0 : Nat) = streamCountFor db.streams c0.id
      have hnil : List.filter (fun s => decide (s.channel_id = some c0.id)) db.streams = [] :=
        List.filter_eq_nil_iff.mpr
          (fun s hs hdec => hany (List.any_eq_true.mpr ⟨s, hs, hdec⟩))
      unfold streamCountFor
      rw [hnil]
      rfl

/-- Witness for C4 on a concrete store: channels `ch1, ch2, ch3` with two
streams on `ch1` and one on `ch2`. -/
theorem C4_witness :
    ((⟨"ch1", "A", none, 1, 2⟩ : ChannelRow).has_streams = 1 ↔
      ∃ s ∈ (⟨[⟨"ch1", "A", none, 0, 0⟩],
        [⟨"s1", some "ch1", none, "", "u1", none, none, none, "unknown", none, none, none, none⟩,
         ⟨"s2", some "ch1", none, "", "u2", none, none, none, "unknown", none, none, none, none⟩]⟩ : DB).streams,
        s.channel_id = some (⟨"ch1", "A", none, 1, 2⟩ : ChannelRow).id) ∧
    (⟨"ch1", "A", none, 1, 2⟩ : ChannelRow).stream_count =
      streamCountFor (⟨[⟨"ch1", "A", none, 0, 0⟩],
        [⟨"s1", some "ch1", none, "", "u1", none, none, none, "unknown", none, none, none, none⟩,
         ⟨"s2", some "ch1", none, "", "u2", none, none, none, "unknown", none, none, none, none⟩]⟩ : DB).streams
        "ch1" :=
  C4_recompute_counts
    ⟨[⟨"ch1", "A", none, 0, 0⟩],
     [⟨"s1", some "ch1", none, "", "u1", none, none, none, "unknown", none, none, none, none⟩,
      ⟨"s2", some "ch1", none, "", "u2", none, none, none, "unknown", none, none, none, none⟩]⟩
    ⟨"ch1", "A", none, 1, 2⟩ (by decide)

/-- C6: the per-probe classification of `_test_stream`: 200/206 → working,
403 → warning with the geo-block note, 404 → `404 Not Found`, any other
code → `HTTP <code>`, timeout → `Timeout`, connection error →
`Connection refused`, other exceptions → first 100 characters of the
message; and a 405 HEAD answer causes exactly one GET retry with
`Range: bytes=0-0`, classified by the same rules. -/
theorem C6_probe_classification (elapsed : Nat) (get : HttpResult) (msg : String) :
    (testStream elapsed (.status 200) get).1 = ⟨"working", some elapsed, none⟩ ∧
    (testStream elapsed (.status 206) get).1 = ⟨"working", some elapsed, none⟩ ∧
    (testStream elapsed (.status 403) get).1 =
      ⟨"warning", some elapsed, some "403 Forbidden (possible geo-block)"⟩ ∧
    (testStream elapsed (.status 404) get).1 = ⟨"failed", none, some "404 Not Found"⟩ ∧
    (∀ c : Nat, c ≠ 200 → c ≠ 206 → c ≠ 403 → c ≠ 404 → c ≠ 405 →
      (testStream elapsed (.status c) get).1 = ⟨"failed", none, some ("HTTP " ++ toString c)⟩) ∧
    (testStream elapsed .timeoutExc get).1 = ⟨"failed", none, some "Timeout"⟩ ∧
    (testStream elapsed .connectExc get).1 = ⟨"failed", none, some "Connection refused"⟩ ∧
    (testStream elapsed (.otherExc msg) get).1 = ⟨"failed", none, some (msg.take 100)⟩ ∧
    (testStream elapsed (.status 405) get) =
      (classifyOutcome elapsed get,
       [⟨"HEAD", none⟩, ⟨"GET", some "bytes=0-0"⟩]) ∧
    (∀ c : Nat, classifyOutcome elapsed (.status c) = classifyStatus elapsed c) ∧
    (∀ h : HttpResult, (∀ c, h = .status c → c ≠ 405) →
      (testStream elapsed h get).2 = [⟨"HEAD", none⟩]) := by
  refine ⟨rfl, rfl, rfl, rfl, ?_, rfl, rfl, rfl, rfl, fun c => rfl, ?_⟩
  · intro c h200 h206 h403 h404 h405
    simp only [testStream, if_neg h405]
    unfold classifyStatus
    rw [if_neg (by simp [h200, h206]), if_neg h403, if_neg h404]
  · intro h hnot
    cases h with
    | status c =>
      simp only [testStream]
      rw [if_neg (hnot c rfl)]
    | timeoutExc => rfl
    | connectExc => rfl
    | otherExc m => rfl

/-- Witness for C6 at concrete inputs: a 500 answer and a non-405 HEAD. -/
theorem C6_witness :
    (testStream 42 (.status 500) (.status 0)).1 = ⟨"failed", none, some "HTTP 500"⟩ ∧
    (testStream 42 (.status 500) (.status 0)).2 = [⟨"HEAD", none⟩] := by
  obtain ⟨-, -, -, -, hother, -, -, -, -, -, hreq⟩ :=
    C6_probe_classification 42 (.status 0) ""
  exact ⟨hother 500 (by decide) (by decide) (by decide) (by decide) (by decide),
    hreq (.status 500) (fun c hc => by cases hc; decide)⟩

/-- C1 (code evaluation): the effective, later definition of
`update_stream_health` has no `next_check_due` parameter, so the worker's
recording call raises `TypeError` and writes nothing; the effective update
body never touches `next_check_due` either.  The claim's schedule
(`working → +6h`, `warning → +7d`, `404 → +7d`, `Timeout → +1h`,
`Connection refused → +1d`, else `+1h`) is computed by `_process_batch`
but can never reach the store. -/
theorem C1_worker_cannot_record :
    recordProbeResult
      ⟨[], [⟨"abc", some "ch1", none, "t", "http://x/1.m3u8", none, none, none,
        "unknown", none, none, none, none⟩]⟩ 1000 "abc"
      ⟨"failed", none, some "Timeout"⟩ =
      Except.error "TypeError: update_stream_health() got an unexpected keyword argument" ∧
    kwargsAccepted effectiveUpdateStreamHealthParams workerUpdateCallKwargs = false ∧
    nextCheckDelta ⟨"failed", none, some "Timeout"⟩ = 3600 ∧
    (∀ db now sid st rms err,
      (update_stream_health_effective db now sid st rms err).streams.map
        (fun s => s.next_check_due) = db.streams.map (fun s => s.next_check_due)) := by
  refine ⟨rfl, rfl, rfl, ?_⟩
  intro db now sid st rms err
  unfold update_stream_health_effective
  simp only [List.map_map]
  apply List.map_congr_left
  intro s _
  by_cases h : s.id = sid <;> simp [h]

/-- Paging reconstruction: gluing the `take pp` windows at offsets
`0, pp, 2*pp, …` recovers the whole list once `n * pp` covers its
length. -/
theorem chunks_join {α : Type} (pp : Nat) :
    ∀ (n : Nat) (l : List α), l.length ≤ n * pp →
      (List.range n).flatMap (fun i => (l.drop (i * pp)).take pp) = l := by
  intro n
  induction n with
  | zero =>
    intro l hl
    simp only [Nat.zero_mul, Nat.le_zero] at hl
    rw [List.eq_nil_of_length_eq_zero hl]
    rfl
  | succ n ih =>
    intro l hl
    rw [List.range_succ_eq_map, List.flatMap_cons, List.flatMap_map]
    have hstep : ∀ i : Nat,
        (l.drop ((i + 1) * pp)).take pp = ((l.drop pp).drop (i * pp)).take pp := by
      intro i
      rw [List.drop_drop]
      have harith : (i + 1) * pp = pp + i * pp := by ring
      rw [harith]
    simp only [Nat.succ_eq_add_one, Nat.zero_mul, List.drop_zero, hstep]
    rw [ih (l.drop pp) (by
      have h2 : (n + 1) * pp = n * pp + pp := by ring
      simp only [List.length_drop]
      omega)]
    exact List.take_append_drop pp l

/-- `nameLe` is transitive. -/
theorem nameLe_trans (a b c : ChannelRow) (hab : nameLe a b) (hbc : nameLe b c) :
    nameLe a c = true := by
  unfold nameLe at *
  exact decide_eq_true (le_trans (of_decide_eq_true hab) (of_decide_eq_true hbc))

/-- `nameLe` is total. -/
theorem nameLe_total (a b : ChannelRow) : nameLe a b || nameLe b a := by
  unfold nameLe
  rcases le_total a.name.data b.name.data with h | h <;> simp [h]

/-- C5: `get_channels(playable_only=true)` with no other filters returns,
across all pages and with the reported total, exactly the channels with
`has_streams = 1 AND closed IS NULL`, ordered by name ascending. -/
theorem C5_playable_filter (db : DB) (pp n : Nat) (hpp : 0 < pp)
    (hn : (db.channels.filter playablePred).length ≤ n * pp) :
    ((List.range n).flatMap (fun i => (get_channels_playable db (i + 1) pp).1)).Perm
      (db.channels.filter playablePred) ∧
    ((List.range n).flatMap (fun i => (get_channels_playable db (i + 1) pp).1)).Pairwise
      (fun a b => nameLe a b = true) ∧
    (∀ page, (get_channels_playable db page pp).2 =
      (db.channels.filter playablePred).length) ∧
    (∀ page c, c ∈ (get_channels_playable db page pp).1 →
      c ∈ db.channels ∧ c.closed = none ∧ c.has_streams = 1) := by
  have hjoin : (List.range n).flatMap (fun i => (get_channels_playable db (i + 1) pp).1)
      = (db.channels.filter playablePred).mergeSort nameLe := by
    unfold get_channels_playable
    simp only [Nat.add_sub_cancel]
    exact chunks_join pp n _ (by rw [List.length_mergeSort]; exact hn)
  refine ⟨?_, ?_, fun page => rfl, ?_⟩
  · rw [hjoin]
    exact List.mergeSort_perm _ _
  · rw [hjoin]
    exact List.sorted_mergeSort nameLe_trans nameLe_total _
  · intro page c hc
    have hc2 : c ∈ (db.channels.filter playablePred).mergeSort nameLe :=
      List.mem_of_mem_drop (List.mem_of_mem_take hc)
    rw [List.mem_mergeSort] at hc2
    have hmem := List.mem_filter.mp hc2
    have hp := hmem.2
    unfold playablePred at hp
    rw [Bool.and_eq_true] at hp
    exact ⟨hmem.1, of_decide_eq_true hp.1, of_decide_eq_true hp.2⟩

/-- Witness for C5 on the spec's scenario-1 store: channels `ch1, ch2`
have streams, `ch3` does not. -/
theorem C5_witness :
    ((List.range 2).flatMap (fun i => (get_channels_playable
      ⟨[⟨"ch1", "A", none, 1, 1⟩, ⟨"ch2", "B", none, 1, 1⟩, ⟨"ch3", "C", none, 0, 0⟩],
       []⟩ (i + 1) 2).1)).Perm
      ((⟨[⟨"ch1", "A", none, 1, 1⟩, ⟨"ch2", "B", none, 1, 1⟩, ⟨"ch3", "C", none, 0, 0⟩],
       []⟩ : DB).channels.filter playablePred) ∧
    ((List.range 2).flatMap (fun i => (get_channels_playable
      ⟨[⟨"ch1", "A", none, 1, 1⟩, ⟨"ch2", "B", none, 1, 1⟩, ⟨"ch3", "C", none, 0, 0⟩],
       []⟩ (i + 1) 2).1)).Pairwise (fun a b => nameLe a b = true) ∧
    (∀ page, (get_channels_playable
      ⟨[⟨"ch1", "A", none, 1, 1⟩, ⟨"ch2", "B", none, 1, 1⟩, ⟨"ch3", "C", none, 0, 0⟩],
       []⟩ page 2).2 = ((⟨[⟨"ch1", "A", none, 1, 1⟩, ⟨"ch2", "B", none, 1, 1⟩,
        ⟨"ch3", "C", none, 0, 0⟩], []⟩ : DB).channels.filter playablePred).length) ∧
    (∀ page c, c ∈ (get_channels_playable
      ⟨[⟨"ch1", "A", none, 1, 1⟩, ⟨"ch2", "B", none, 1, 1⟩, ⟨"ch3", "C", none, 0, 0⟩],
       []⟩ page 2).1 →
      c ∈ (⟨[⟨"ch1", "A", none, 1, 1⟩, ⟨"ch2", "B", none, 1, 1⟩,
        ⟨"ch3", "C", none, 0, 0⟩], []⟩ : DB).channels ∧
      c.closed = none ∧ c.has_streams = 1) :=
  C5_playable_filter
    ⟨[⟨"ch1", "A", none, 1, 1⟩, ⟨"ch2", "B", none, 1, 1⟩, ⟨"ch3", "C", none, 0, 0⟩], []⟩
    2 2 (by decide) (by decide)

/-- `nullsFirstLe` is transitive. -/
theorem nullsFirstLe_trans (a b c : StreamRow) (hab : nullsFirstLe a b)
    (hbc : nullsFirstLe b c) : nullsFirstLe a c = true := by
  unfold nullsFirstLe at *
  cases ha : a.health_checked_at with
  | none => rfl
  | some x =>
    rw [ha] at hab
    cases hb : b.health_checked_at with
    | none =>
      rw [hb] at hab
      exact absurd hab Bool.false_ne_true
    | some y =>
      rw [hb] at hab hbc
      cases hc : c.health_checked_at with
      | none =>
        rw [hc] at hbc
        exact absurd hbc Bool.false_ne_true
      | some z =>
        rw [hc] at hbc
        exact decide_eq_true (le_trans (of_decide_eq_true hab) (of_decide_eq_true hbc))

/-- `nullsFirstLe` is total. -/
theorem nullsFirstLe_total (a b : StreamRow) : nullsFirstLe a b || nullsFirstLe b a := by
  unfold nullsFirstLe
  cases a.health_checked_at with
  | none => simp
  | some x =>
    cases b.health_checked_at with
    | none => simp
    | some y => rcases le_total x y with h | h <;> simp [h]

/-- C7 (amended): the effective `get_unchecked_streams` returns only
streams never checked or checked more than one hour ago, ordered nulls
first then oldest first, limited to `limit` rows, and each returned row
carries exactly the fields `id, url, referrer, user_agent, channel_id`
(the effective definition does not select `health_status`). -/
theorem C7_unchecked_rows (db : DB) (now : Int) (limit : Nat) :
    ∃ sel : List StreamRow,
      get_unchecked_streams db now limit = sel.map projUnchecked ∧
      (∀ s ∈ sel, s ∈ db.streams ∧
        (s.health_checked_at = none ∨
          ∃ t, s.health_checked_at = some t ∧ t < now - 3600)) ∧
      sel.Pairwise (fun a b => nullsFirstLe a b = true) ∧
      sel.length ≤ limit ∧
      (∀ r ∈ get_unchecked_streams db now limit,
        r.map Prod.fst = ["id", "url", "referrer", "user_agent", "channel_id"]) := by
  refine ⟨((db.streams.filter (uncheckedEligible now)).mergeSort nullsFirstLe).take limit,
    rfl, ?_, ?_, ?_, ?_⟩
  · intro s hs
    have hs2 : s ∈ (db.streams.filter (uncheckedEligible now)).mergeSort nullsFirstLe :=
      List.mem_of_mem_take hs
    rw [List.mem_mergeSort] at hs2
    have hmem := List.mem_filter.mp hs2
    refine ⟨hmem.1, ?_⟩
    have he := hmem.2
    unfold uncheckedEligible at he
    cases hca : s.health_checked_at with
    | none => exact Or.inl rfl
    | some t =>
      right
      rw [hca] at he
      exact ⟨t, rfl, of_decide_eq_true he⟩
  · exact List.Pairwise.sublist (List.take_sublist _ _)
      (List.sorted_mergeSort nullsFirstLe_trans nullsFirstLe_total _)
  · simp [List.length_take]
  · intro r hr
    obtain ⟨s, _, rfl⟩ := List.mem_map.mp hr
    rfl

/-- Witness for C7 at a concrete store with one checked and one unchecked
stream. -/
theorem C7_witness :
    ∃ sel : List StreamRow,
      get_unchecked_streams
        ⟨[], [⟨"a", none, none, "", "u1", none, none, none, "unknown", some 100, none, none, none⟩,
          ⟨"b", none, none, "", "u2", none, none, none, "unknown", none, none, none, none⟩]⟩
        10000 50 = sel.map projUnchecked ∧
      (∀ s ∈ sel, s ∈ (⟨[], [⟨"a", none, none, "", "u1", none, none, none, "unknown",
          some 100, none, none, none⟩,
          ⟨"b", none, none, "", "u2", none, none, none, "unknown", none, none, none,
            none⟩]⟩ : DB).streams ∧
        (s.health_checked_at = none ∨
          ∃ t, s.health_checked_at = some t ∧ t < 10000 - 3600)) ∧
      sel.Pairwise (fun a b => nullsFirstLe a b = true) ∧
      sel.length ≤ 50 ∧
      (∀ r ∈ get_unchecked_streams
        ⟨[], [⟨"a", none, none, "", "u1", none, none, none, "unknown", some 100, none, none, none⟩,
          ⟨"b", none, none, "", "u2", none, none, none, "unknown", none, none, none, none⟩]⟩
        10000 50,
        r.map Prod.fst = ["id", "url", "referrer", "user_agent", "channel_id"]) :=
  C7_unchecked_rows
    ⟨[], [⟨"a", none, none, "", "u1", none, none, none, "unknown", some 100, none, none, none⟩,
      ⟨"b", none, none, "", "u2", none, none, none, "unknown", none, none, none, none⟩]⟩
    10000 50

/-- C7 (counterexample): on a store with one never-checked stream, the
returned row names exactly `id, url, referrer, user_agent, channel_id` —
`health_status` is not among its fields, contradicting the claimed field
list. -/
theorem C7_counterexample :
    (get_unchecked_streams
      ⟨[], [⟨"s1", some "ch1", none, "t", "http://x", none, none, none, "unknown",
        none, none, none, none⟩]⟩ 10000 50).map (fun r => r.map Prod.fst) =
      [["id", "url", "referrer", "user_agent", "channel_id"]] ∧
    "health_status" ∉ (["id", "url", "referrer", "user_agent", "channel_id"] : List String) := by
  constructor
  · unfold get_unchecked_streams
    simp [uncheckedEligible, projUnchecked]
  · decide

/-- The stored row's primary key is the computed stream id. -/
theorem rowOfInput_id (inp : StreamInput) : (rowOfInput inp).id = storeStreamId inp := by
  simp only [rowOfInput]

/-- Replacing a row whose key already occurs keeps the row count. -/
theorem insertOrReplace_length_of_mem (rows : List StreamRow) (r : StreamRow)
    (h : rows.any (fun x => decide (x.id = r.id)) = true) :
    (insertOrReplaceStream rows r).length = rows.length := by
  unfold insertOrReplaceStream
  rw [if_pos h]
  exact List.length_map rows _

/-- After an insert-or-replace, a row with the inserted key is present. -/
theorem insertOrReplace_any_self (rows : List StreamRow) (r : StreamRow) :
    (insertOrReplaceStream rows r).any (fun x => decide (x.id = r.id)) = true := by
  unfold insertOrReplaceStream
  by_cases h : rows.any (fun x => decide (x.id = r.id)) = true
  · rw [if_pos h]
    obtain ⟨x, hx, hdec⟩ := List.any_eq_true.mp h
    refine List.any_eq_true.mpr ⟨r, ?_, decide_eq_true rfl⟩
    exact List.mem_map.mpr ⟨x, hx, by rw [if_pos (of_decide_eq_true hdec)]⟩
  · rw [if_neg h]
    exact List.any_eq_true.mpr ⟨r, by simp, decide_eq_true rfl⟩

/-- C8 (amended): for the catalog path `store_streams` the id is the first
12 hex characters of `MD5(url + channel)`, a pure function of the
`(url, channel)` pair, and re-storing the same pair never creates a second
row; the M3U import path instead derives its id from
`(url, country, provider)`. -/
theorem C8_store_stream_ids (db : DB) (s t : StreamInput)
    (hurl : s.url = t.url) (hch : s.channel = t.channel) :
    storeStreamId s = storeStreamId t ∧
    (∀ c : String, s.channel = some c →
      storeStreamId s = (md5Hex (strBytes (s.url ++ c))).take 12) ∧
    (store_streams (store_streams db [s]) [t]).streams.length =
      (store_streams db [s]).streams.length ∧
    (∀ (url country : String) (provider : Option String),
      m3uStreamId url country provider =
        (md5Hex (strBytes (url ++ country ++ provider.getD ""))).take 12) := by
  have hid : storeStreamId s = storeStreamId t := by
    unfold storeStreamId
    rw [hurl, hch]
  refine ⟨hid, ?_, ?_, fun url c p => rfl⟩
  · intro c hc
    unfold storeStreamId
    rw [hc]
    rfl
  · simp only [store_streams, List.foldl_cons, List.foldl_nil]
    apply insertOrReplace_length_of_mem
    rw [rowOfInput_id, ← hid, ← rowOfInput_id]
    exact insertOrReplace_any_self db.streams (rowOfInput s)

/-- Witness for C8: storing the same `(url, channel)` catalog entry twice
leaves a single row. -/
theorem C8_witness :
    storeStreamId ⟨"http://x/1.m3u8", some "ch1", none, "", none, none, none⟩ =
      storeStreamId ⟨"http://x/1.m3u8", some "ch1", none, "t2", none, none, some "720p"⟩ ∧
    (∀ c : String,
      (⟨"http://x/1.m3u8", some "ch1", none, "", none, none, none⟩ : StreamInput).channel = some c →
      storeStreamId ⟨"http://x/1.m3u8", some "ch1", none, "", none, none, none⟩ =
        (md5Hex (strBytes ((⟨"http://x/1.m3u8", some "ch1", none, "", none, none,
          none⟩ : StreamInput).url ++ c))).take 12) ∧
    (store_streams (store_streams ⟨[], []⟩
        [⟨"http://x/1.m3u8", some "ch1", none, "", none, none, none⟩])
      [⟨"http://x/1.m3u8", some "ch1", none, "t2", none, none, some "720p"⟩]).streams.length =
      (store_streams ⟨[], []⟩
        [⟨"http://x/1.m3u8", some "ch1", none, "", none, none, none⟩]).streams.length ∧
    (∀ (url country : String) (provider : Option String),
      m3uStreamId url country provider =
        (md5Hex (strBytes (url ++ country ++ provider.getD ""))).take 12) :=
  C8_store_stream_ids ⟨[], []⟩
    ⟨"http://x/1.m3u8", some "ch1", none, "", none, none, none⟩
    ⟨"http://x/1.m3u8", some "ch1", none, "t2", none, none, some "720p"⟩ rfl rfl

/-- C8 (counterexample): a stream imported from the M3U file `us_a.m3u`
with `tvg-id="ABC.us"` gets id `MD5(url + country + provider)[:12]`, which
differs from `MD5(url + channel)[:12]`; importing the same
`(url, channel_id)` pair from `us_b.m3u` therefore creates a second row. -/
theorem C8_counterexample :
    m3uStreamId "http://x/1.m3u8" "US" (some "a") ≠
      (md5Hex (strBytes ("http://x/1.m3u8" ++ "ABC.us"))).take 12 ∧
    m3uStreamId "http://x/1.m3u8" "US" (some "a") ≠
      m3uStreamId "http://x/1.m3u8" "US" (some "b") ∧
    (store_m3u_streams (store_m3u_streams ⟨[], []⟩
        [⟨m3uStreamId "http://x/1.m3u8" "US" (some "a"), some "ABC.us", none, "ABC",
          "http://x/1.m3u8", none, none, none⟩])
      [⟨m3uStreamId "http://x/1.m3u8" "US" (some "b"), some "ABC.us", none, "ABC",
        "http://x/1.m3u8", none, none, none⟩]).streams.length = 2 :=
  ⟨by decide, by decide, by decide⟩

/-- A `URI="` match cannot start where the next five characters are
quote-free. -/
theorem uriPrefixAt_false_of_no_quote (l : List Char)
    (h : ∀ x ∈ l.take 5, x ≠ '"') : uriPrefixAt l = false := by
  match l with
  | [] => rfl
  | [a] => rfl
  | [a, b] => rfl
  | [a, b, c] => rfl
  | [a, b, c, d] => rfl
  | a :: b :: c :: d :: e :: rest =>
    have he : e ≠ '"' := h e (by
      rw [show (a :: b :: c :: d :: e :: rest).take 5 = [a, b, c, d, e] from rfl]
      simp)
    simp [uriPrefixAt, decide_eq_false he]

/-- The first five characters of `p ++ URI= ++ …` are quote-free when `p`
is quote-free and nonempty. -/
theorem take5_no_quote (p : List Char) (hp : ∀ x ∈ p, x ≠ '"') (hne : p ≠ [])
    (tail : List Char) :
    ∀ x ∈ (p ++ 'U' :: 'R' :: 'I' :: '=' :: tail).take 5, x ≠ '"' := by
  intro x hx
  have hlen : 5 ≤ (p ++ ['U', 'R', 'I', '=']).length := by
    cases p with
    | nil => exact absurd rfl hne
    | cons a t => simp only [List.length_append, List.length_cons]; omega
  rw [show p ++ 'U' :: 'R' :: 'I' :: '=' :: tail = (p ++ ['U', 'R', 'I', '=']) ++ tail by
    simp] at hx
  rw [List.take_append_of_le_length hlen] at hx
  have hx2 : x ∈ p ++ ['U', 'R', 'I', '='] := List.mem_of_mem_take hx
  rcases List.mem_append.mp hx2 with hxp | hxl
  · exact hp x hxp
  · simp only [List.mem_cons, List.not_mem_nil, or_false] at hxl
    rcases hxl with rfl | rfl | rfl | rfl <;> decide

/-- `URI="` does match at a literal `URI="` head. -/
theorem uriPrefixAt_cons (rest : List Char) :
    uriPrefixAt ('U' :: 'R' :: 'I' :: '=' :: '"' :: rest) = true := rfl

/-- `re.search(r'URI="([^"]+)"')` on a line of the form
`p ++ URI="u" ++ suf` with quote-free `p` and nonempty quote-free `u`
captures exactly `u`. -/
theorem uriSearch_concat :
    ∀ (p : List Char), (∀ x ∈ p, x ≠ '"') →
    ∀ (u suf : List Char), (∀ x ∈ u, x ≠ '"') → u ≠ [] →
      uriSearch (p ++ 'U' :: 'R' :: 'I' :: '=' :: '"' :: (u ++ '"' :: suf)) = some u := by
  intro p
  induction p with
  | nil =>
    intro _ u suf hu hune
    rw [List.nil_append]
    show uriSearch ('U' :: 'R' :: 'I' :: '=' :: '"' :: (u ++ '"' :: suf)) = some u
    rw [uriSearch]
    rw [if_pos (uriPrefixAt_cons (u ++ '"' :: suf))]
    have hafter : ('U' :: 'R' :: 'I' :: '=' :: '"' :: (u ++ '"' :: suf)).drop 5 =
      u ++ '"' :: suf := rfl
    have hcontent : (u ++ '"' :: suf).takeWhile (fun ch => ch ≠ '"') = u :=
      takeWhile_append_stop _ u '"' suf
        (fun x hx => decide_eq_true (hu x hx)) (by decide)
    simp only [hafter, hcontent]
    rw [if_neg (by
      cases u with
      | nil => exact absurd rfl hune
      | cons a t => simp), if_pos (by
      simp only [List.length_append, List.length_cons]
      omega)]
  | cons c p2 ih =>
    intro hp u suf hu hune
    rw [List.cons_append]
    rw [uriSearch]
    rw [if_neg (by
      rw [uriPrefixAt_false_of_no_quote]
      · simp
      · rw [← List.cons_append]
        exact take5_no_quote (c :: p2) hp (by simp) _)]
    exact ih (fun x hx => hp x (by simp [hx])) u suf hu hune

/-- The substitution scan leaves a quote-free list unchanged. -/
theorem uriSubAux_no_quote (proxy : List Char) :
    ∀ (fuel : Nat) (l : List Char), (∀ x ∈ l, x ≠ '"') →
      uriSubAllAux proxy fuel l = l := by
  intro fuel
  induction fuel with
  | zero => intro l _; cases l <;> rfl
  | succ f ih =>
    intro l hl
    cases l with
    | nil => rfl
    | cons c rest =>
      rw [uriSubAllAux]
      rw [if_neg (by
        rw [uriPrefixAt_false_of_no_quote _
          (fun x hx => hl x (List.mem_of_mem_take hx))]
        simp)]
      rw [ih rest (fun x hx => hl x (by simp [hx]))]

/-- `re.sub(r'URI="([^"]+)"', 'URI="<proxy>"')` on a single-attribute line
with quote-free parts replaces exactly the attribute value. -/
theorem uriSubAux_concat (proxy : List Char) :
    ∀ (p : List Char), (∀ x ∈ p, x ≠ '"') →
    ∀ (u suf : List Char) (fuel : Nat), (∀ x ∈ u, x ≠ '"') → u ≠ [] →
      (∀ x ∈ suf, x ≠ '"') →
      (p ++ 'U' :: 'R' :: 'I' :: '=' :: '"' :: (u ++ '"' :: suf)).length ≤ fuel →
      uriSubAllAux proxy fuel (p ++ 'U' :: 'R' :: 'I' :: '=' :: '"' :: (u ++ '"' :: suf)) =
        p ++ 'U' :: 'R' :: 'I' :: '=' :: '"' :: (proxy ++ '"' :: suf) := by
  intro p
  induction p with
  | nil =>
    intro _ u suf fuel hu hune hsuf hfuel
    rw [List.nil_append] at hfuel ⊢
    cases fuel with
    | zero => simp at hfuel
    | succ f =>
      show uriSubAllAux proxy (f + 1) ('U' :: 'R' :: 'I' :: '=' :: '"' :: (u ++ '"' :: suf)) = _
      rw [uriSubAllAux]
      rw [if_pos (uriPrefixAt_cons (u ++ '"' :: suf))]
      have hafter : ('U' :: 'R' :: 'I' :: '=' :: '"' :: (u ++ '"' :: suf)).drop 5 =
        u ++ '"' :: suf := rfl
      have hcontent : (u ++ '"' :: suf).takeWhile (fun ch => ch ≠ '"') = u :=
        takeWhile_append_stop _ u '"' suf
          (fun x hx => decide_eq_true (hu x hx)) (by decide)
      simp only [hafter, hcontent]
      rw [if_pos (by
        constructor
        · cases u with
          | nil => exact absurd rfl hune
          | cons a t => simp
        · simp only [List.length_append, List.length_cons]
          omega)]
      have hdrop : (u ++ '"' :: suf).drop (u.length + 1) = suf := by
        rw [show u ++ '"' :: suf = (u ++ ['"']) ++ suf by simp]
        rw [show u.length + 1 = (u ++ ['"']).length by simp]
        exact List.drop_left _ _
      rw [hdrop, uriSubAux_no_quote proxy f suf hsuf]
      simp [uriPat]
  | cons c p2 ih =>
    intro hp u suf fuel hu hune hsuf hfuel
    rw [List.cons_append] at hfuel ⊢
    cases fuel with
    | zero => simp at hfuel
    | succ f =>
      rw [uriSubAllAux]
      rw [if_neg (by
        rw [uriPrefixAt_false_of_no_quote]
        · simp
        · rw [← List.cons_append]
          exact take5_no_quote (c :: p2) hp (by simp) _)]
      rw [ih (fun x hx => hp x (by simp [hx])) u suf f hu hune hsuf (by
        simp only [List.length_cons] at hfuel
        omega)]
      rfl

/-- Character data of `p ++ URI=" ++ mid ++ " ++ suf`. -/
theorem uriConcat_data (p mid suf : String) :
    (p ++ "URI=\"" ++ mid ++ "\"" ++ suf).data =
      p.data ++ 'U' :: 'R' :: 'I' :: '=' :: '"' :: (mid.data ++ '"' :: suf.data) := by
  rw [String.data_append, String.data_append, String.data_append, String.data_append]
  rw [show ("URI=\"" : String).data = ['U', 'R', 'I', '=', '"'] from rfl,
    show ("\"" : String).data = ['"'] from rfl]
  simp [List.append_assoc]

/-- `_rewrite_uri_attribute` on a line holding exactly one quote-delimited
URI attribute (quote-free prefix, value and suffix) replaces the value by
the proxy URL of the resolved target. -/
theorem rewriteUriAttribute_single (join : String → String → String)
    (urlBase streamId baseUrl : String) (p u suf : String)
    (hp : ∀ x ∈ p.data, x ≠ '"') (hu : ∀ x ∈ u.data, x ≠ '"')
    (hune : u.data ≠ []) (hsuf : ∀ x ∈ suf.data, x ≠ '"') :
    rewriteUriAttribute join urlBase streamId baseUrl (p ++ "URI=\"" ++ u ++ "\"" ++ suf) =
      p ++ "URI=\"" ++
        proxyUrl baseUrl streamId (b64encodeStr (uriFullUrl join urlBase u)) ++ "\"" ++ suf := by
  unfold rewriteUriAttribute
  rw [uriConcat_data p u suf,
    uriSearch_concat p.data hp u.data suf.data hu hune]
  show String.mk (uriSubAll
      (proxyUrl baseUrl streamId (b64encodeStr (uriFullUrl join urlBase ⟨u.data⟩))).data
      (p.data ++ 'U' :: 'R' :: 'I' :: '=' :: '"' :: (u.data ++ '"' :: suf.data))) = _
  unfold uriSubAll
  rw [uriSubAux_concat _ p.data hp u.data suf.data _ hu hune hsuf le_rfl]
  apply String.ext
  rw [uriConcat_data p _ suf]

/-- C2 (amended): `_rewrite_manifest` produces exactly one output line per
input line, in order; every line is whitespace-stripped; a stripped
comment line without a `URI="` attribute is otherwise unchanged; a
non-blank non-comment line becomes
`{base_url}/api/streams/{stream_id}/segment/{encoded}` whose last path
segment URL-safe-base64-decodes to the absolute origin URL obtained by
resolving the line against the manifest directory; and a `URI="..."`
attribute in a comment line is replaced by such a proxy URL. -/
theorem C2_rewrite_manifest (join : String → String → String)
    (urlBase streamId baseUrl : String) (lines : List String) :
    (rewriteLines join urlBase streamId baseUrl lines).length = lines.length ∧
    (∀ i, i < lines.length →
      (rewriteLines join urlBase streamId baseUrl lines).getD i "" =
        rewriteLine join urlBase streamId baseUrl (lines.getD i "")) ∧
    (∀ line : String,
      (((pyStrip line).data = []) →
        rewriteLine join urlBase streamId baseUrl line = pyStrip line) ∧
      ((pyStrip line).data ≠ [] → startsWithStr "#" (pyStrip line) = true →
        containsSub uriPat (pyStrip line).data = false →
        rewriteLine join urlBase streamId baseUrl line = pyStrip line) ∧
      ((pyStrip line).data ≠ [] → startsWithStr "#" (pyStrip line) = true →
        containsSub uriPat (pyStrip line).data = true →
        rewriteLine join urlBase streamId baseUrl line =
          rewriteUriAttribute join urlBase streamId baseUrl (pyStrip line)) ∧
      ((pyStrip line).data ≠ [] → startsWithStr "#" (pyStrip line) = false →
        rewriteLine join urlBase streamId baseUrl line =
          proxyUrl baseUrl streamId
            (b64encodeStr (lineFullUrl join urlBase (pyStrip line))) ∧
        lastSegment (rewriteLine join urlBase streamId baseUrl line) =
          b64encodeStr (lineFullUrl join urlBase (pyStrip line)) ∧
        (isAsciiStr (lineFullUrl join urlBase (pyStrip line)) →
          b64decodeStr (lastSegment (rewriteLine join urlBase streamId baseUrl line)) =
            some (lineFullUrl join urlBase (pyStrip line))))) ∧
    (∀ p u suf : String, (∀ x ∈ p.data, x ≠ '"') → (∀ x ∈ u.data, x ≠ '"') →
      u.data ≠ [] → (∀ x ∈ suf.data, x ≠ '"') →
      rewriteUriAttribute join urlBase streamId baseUrl (p ++ "URI=\"" ++ u ++ "\"" ++ suf) =
        p ++ "URI=\"" ++
          proxyUrl baseUrl streamId (b64encodeStr (uriFullUrl join urlBase u)) ++ "\"" ++ suf ∧
      (isAsciiStr (uriFullUrl join urlBase u) →
        b64decodeStr (lastSegment (proxyUrl baseUrl streamId
          (b64encodeStr (uriFullUrl join urlBase u)))) =
          some (uriFullUrl join urlBase u))) := by
  have hseg : ∀ target : String,
      lastSegment (proxyUrl baseUrl streamId (b64encodeStr target)) = b64encodeStr target :=
    fun target => lastSegment_proxyUrl baseUrl streamId (b64encodeStr target)
      (fun c hc => b64encode_ne_slash (strBytes target) c hc)
  refine ⟨List.length_map lines _, ?_, ?_, ?_⟩
  · intro i hi
    unfold rewriteLines
    rw [List.getD_eq_getElem?_getD, List.getElem?_map,
      List.getElem?_eq_getElem hi]
    rw [List.getD_eq_getElem?_getD, List.getElem?_eq_getElem hi]
    rfl
  · intro line
    refine ⟨?_, ?_, ?_, ?_⟩
    · intro hempty
      unfold rewriteLine
      rw [if_pos (by rw [hempty]; rfl)]
    · intro hne hcomment huri
      unfold rewriteLine
      rw [if_neg (by
        cases hdata : (pyStrip line).data with
        | nil => exact absurd hdata hne
        | cons a t => simp), if_pos hcomment, if_neg (by rw [huri]; simp)]
    · intro hne hcomment huri
      unfold rewriteLine
      rw [if_neg (by
        cases hdata : (pyStrip line).data with
        | nil => exact absurd hdata hne
        | cons a t => simp), if_pos hcomment, if_pos huri]
    · intro hne hcomment
      have hbranch : rewriteLine join urlBase streamId baseUrl line =
          proxyUrl baseUrl streamId
            (b64encodeStr (lineFullUrl join urlBase (pyStrip line))) := by
        unfold rewriteLine
        rw [if_neg (by
          cases hdata : (pyStrip line).data with
          | nil => exact absurd hdata hne
          | cons a t => simp), if_neg (by rw [hcomment]; simp)]
      refine ⟨hbranch, ?_, ?_⟩
      · rw [hbranch]
        exact hseg _
      · intro hascii
        rw [hbranch, hseg _]
        exact b64_roundtrip_str hascii
  · intro p u suf hp hu hune hsuf
    refine ⟨rewriteUriAttribute_single join urlBase streamId baseUrl p u suf hp hu hune hsuf,
      ?_⟩
    intro hascii
    rw [hseg _]
    exact b64_roundtrip_str hascii

/-- C2 (counterexample): a comment line carrying trailing whitespace is
not returned unchanged — `_rewrite_manifest` strips every line — so
"comment lines are unchanged" fails as stated. -/
theorem C2_counterexample :
    rewriteLines (fun b r => b ++ r) "http://ex.com/live/" "s" "http://api.local"
      ["#EXTM3U "] ≠ ["#EXTM3U "] := by decide

/-- Witness for C2 on the spec's scenario-3 manifest plus a key line. -/
theorem C2_witness :
    rewriteLine (fun b r => b ++ r) "http://ex.com/live/" "s" "http://api.local"
      "segment0.ts" =
      proxyUrl "http://api.local" "s"
        (b64encodeStr (lineFullUrl (fun b r => b ++ r) "http://ex.com/live/"
          (pyStrip "segment0.ts"))) ∧
    b64decodeStr (lastSegment (rewriteLine (fun b r => b ++ r) "http://ex.com/live/" "s"
      "http://api.local" "segment0.ts")) =
      some (lineFullUrl (fun b r => b ++ r) "http://ex.com/live/" (pyStrip "segment0.ts")) ∧
    rewriteUriAttribute (fun b r => b ++ r) "http://ex.com/live/" "s" "http://api.local"
      ("#EXT-X-KEY:METHOD=AES-128,URI=" ++ "\"" ++ "key.bin" ++ "\"" ++ ",IV=0x1") =
      ("#EXT-X-KEY:METHOD=AES-128," ++ "URI=\"" ++
        proxyUrl "http://api.local" "s"
          (b64encodeStr (uriFullUrl (fun b r => b ++ r) "http://ex.com/live/" "key.bin")) ++
        "\"" ++ ",IV=0x1") := by
  obtain ⟨-, -, hline, huri⟩ :=
    C2_rewrite_manifest (fun b r => b ++ r) "http://ex.com/live/" "s" "http://api.local"
      ["#EXTM3U", "#EXTINF:4,", "segment0.ts"]
  obtain ⟨-, -, -, hnc⟩ := hline "segment0.ts"
  obtain ⟨h1, -, h3⟩ := hnc (by decide) (by decide)
  refine ⟨h1, h3 (by decide), ?_⟩
  have := (huri "#EXT-X-KEY:METHOD=AES-128," "key.bin" ",IV=0x1"
    (by decide) (by decide) (by decide) (by decide)).1
  calc rewriteUriAttribute (fun b r => b ++ r) "http://ex.com/live/" "s" "http://api.local"
        ("#EXT-X-KEY:METHOD=AES-128,URI=" ++ "\"" ++ "key.bin" ++ "\"" ++ ",IV=0x1")
      = rewriteUriAttribute (fun b r => b ++ r) "http://ex.com/live/" "s" "http://api.local"
        ("#EXT-X-KEY:METHOD=AES-128," ++ "URI=\"" ++ "key.bin" ++ "\"" ++ ",IV=0x1") := by
        congr 1
    _ = _ := this

theorem maxQ_eq_none {l : List ℚ} : maxQ l = none ↔ l = [] := by
  cases l with
  | nil => simp [maxQ]
  | cons x xs =>
    simp only [maxQ]
    cases maxQ xs <;> simp

theorem maxQ_spec : ∀ {l : List ℚ} {m : ℚ}, maxQ l = some m →
    m ∈ l ∧ ∀ a ∈ l, a ≤ m := by
  intro l
  induction l with
  | nil => intro m h; simp [maxQ] at h
  | cons x xs ih =>
    intro m h
    rw [maxQ] at h
    cases hxs : maxQ xs with
    | none =>
      rw [hxs] at h
      have hxm : x = m := by injection h
      subst hxm
      have hempty : xs = [] := maxQ_eq_none.mp hxs
      subst hempty
      exact ⟨by simp, by simp⟩
    | some m1 =>
      rw [hxs] at h
      have hm : max x m1 = m := by injection h
      obtain ⟨hmem, hbound⟩ := ih hxs
      constructor
      · rcases le_total m1 x with hc | hc
        · rw [← hm, max_eq_left hc]
          exact List.mem_cons_self x xs
        · rw [← hm, max_eq_right hc]
          exact List.mem_cons_of_mem x hmem
      · intro a ha
        rcases List.mem_cons.mp ha with rfl | haxs
        · rw [← hm]; exact le_max_left _ _
        · rw [← hm]; exact le_trans (hbound a haxs) (le_max_right _ _)

theorem maxQ_of_mem_bound : ∀ {l : List ℚ} {m : ℚ}, m ∈ l → (∀ a ∈ l, a ≤ m) →
    maxQ l = some m := by
  intro l
  induction l with
  | nil => intro m h _; cases h
  | cons x xs ih =>
    intro m hmem hbound
    rw [maxQ]
    cases hxs : maxQ xs with
    | none =>
      have hempty : xs = [] := maxQ_eq_none.mp hxs
      subst hempty
      rcases List.mem_cons.mp hmem with rfl | h0
      · rfl
      · cases h0
    | some m1 =>
      show some (max x m1) = some m
      congr 1
      apply le_antisymm
      · apply max_le
        · exact hbound x (by simp)
        · obtain ⟨hm1mem, -⟩ := maxQ_spec hxs
          exact hbound m1 (by simp [hm1mem])
      · rcases List.mem_cons.mp hmem with rfl | hmxs
        · exact le_max_left _ _
        · obtain ⟨-, hb1⟩ := maxQ_spec hxs
          exact le_trans (hb1 m hmxs) (le_max_right _ _)

/-- The best-candidate fold of `fuzzy_match_channel` computes the first
entry attaining the maximal score among entries whose score exceeds the
running best and the threshold. -/
theorem fuzzyLoopAux_spec (score : String × String → ℚ) (thr : ℚ) :
    ∀ (l : List (String × String)) (bs : ℚ) (best : Option String),
      fuzzyLoopAux score thr l bs best =
        match maxQ ((l.filter (fun f => decide (bs < score f) &&
            decide (thr ≤ score f))).map score) with
        | none => best
        | some m => (l.find? (fun f => decide (score f = m))).map (fun f => f.2) := by
  intro l
  induction l with
  | nil => intro bs best; rfl
  | cons e rest ih =>
    intro bs best
    by_cases hcond : bs < score e ∧ thr ≤ score e
    · rw [fuzzyLoopAux, if_pos hcond, ih (score e) (some e.2)]
      have hpe : (decide (bs < score e) && decide (thr ≤ score e)) = true := by
        rw [decide_eq_true hcond.1, decide_eq_true hcond.2]; rfl
      rw [List.filter_cons, if_pos hpe, List.map_cons]
      cases hM : maxQ ((rest.filter (fun f => decide (score e < score f) &&
          decide (thr ≤ score f))).map score) with
      | none =>
        have hempty : (rest.filter (fun f => decide (score e < score f) &&
            decide (thr ≤ score f))).map score = [] := maxQ_eq_none.mp hM
        have hbound : ∀ a ∈ (rest.filter (fun f => decide (bs < score f) &&
            decide (thr ≤ score f))).map score, a ≤ score e := by
          intro a ha
          obtain ⟨g, hg, rfl⟩ := List.mem_map.mp ha
          have hgmem := List.mem_filter.mp hg
          have hql := hgmem.2
          rw [Bool.and_eq_true] at hql
          by_contra hgt
          push_neg at hgt
          have hgin : score g ∈ (rest.filter (fun f => decide (score e < score f) &&
              decide (thr ≤ score f))).map score :=
            List.mem_map.mpr ⟨g, List.mem_filter.mpr ⟨hgmem.1, by
              rw [Bool.and_eq_true]
              exact ⟨decide_eq_true hgt, hql.2⟩⟩, rfl⟩
          rw [hempty] at hgin
          cases hgin
        have hRmax : maxQ (score e :: (rest.filter (fun f => decide (bs < score f) &&
            decide (thr ≤ score f))).map score) = some (score e) :=
          maxQ_of_mem_bound (by simp) (by
            intro a ha
            rcases List.mem_cons.mp ha with rfl | h2
            · exact le_refl _
            · exact hbound a h2)
        rw [hRmax]
        show some e.2 =
          ((e :: rest).find? (fun f => decide (score f = score e))).map (fun f => f.2)
        have hfind := @List.find?_cons_of_pos _ (fun f => decide (score f = score e)) e rest
          (decide_eq_true rfl)
        rw [hfind]
        rfl
      | some m0 =>
        obtain ⟨hmmem, hmbound⟩ := maxQ_spec hM
        obtain ⟨f, hf, hfscore⟩ := List.mem_map.mp hmmem
        have hfmem := List.mem_filter.mp hf
        have hfconds := hfmem.2
        rw [Bool.and_eq_true] at hfconds
        have hlt : score e < m0 := by
          rw [← hfscore]; exact of_decide_eq_true hfconds.1
        have hRmax : maxQ (score e :: (rest.filter (fun g => decide (bs < score g) &&
            decide (thr ≤ score g))).map score) = some m0 := by
          apply maxQ_of_mem_bound
          · apply List.mem_cons_of_mem
            refine List.mem_map.mpr ⟨f, List.mem_filter.mpr ⟨hfmem.1, ?_⟩, hfscore⟩
            rw [Bool.and_eq_true]
            refine ⟨decide_eq_true ?_, hfconds.2⟩
            have hef : score e < score f := by rw [hfscore]; exact hlt
            exact lt_trans hcond.1 hef
          · intro a ha
            rcases List.mem_cons.mp ha with rfl | h2
            · exact le_of_lt hlt
            · obtain ⟨g, hg, rfl⟩ := List.mem_map.mp h2
              have hgmem := List.mem_filter.mp hg
              have hgconds := hgmem.2
              rw [Bool.and_eq_true] at hgconds
              by_contra hgt
              push_neg at hgt
              have hle : score g ≤ m0 := hmbound (score g) (List.mem_map.mpr ⟨g,
                List.mem_filter.mpr ⟨hgmem.1, by
                  rw [Bool.and_eq_true]
                  exact ⟨decide_eq_true (lt_trans hlt hgt), hgconds.2⟩⟩, rfl⟩)
              exact absurd hle (not_le.mpr hgt)
        rw [hRmax]
        show (rest.find? (fun g => decide (score g = m0))).map (fun g => g.2) =
          ((e :: rest).find? (fun g => decide (score g = m0))).map (fun g => g.2)
        have hfind := @List.find?_cons_of_neg _ (fun g => decide (score g = m0)) e rest
          (fun hh => ne_of_lt hlt (of_decide_eq_true hh))
        rw [hfind]
    · rw [fuzzyLoopAux, if_neg hcond, ih bs best]
      have hpe : (decide (bs < score e) && decide (thr ≤ score e)) = false := by
        by_cases h1 : bs < score e
        · have h2 : ¬ thr ≤ score e := fun hh => hcond ⟨h1, hh⟩
          rw [decide_eq_false h2, Bool.and_false]
        · rw [decide_eq_false h1, Bool.false_and]
      rw [List.filter_cons, if_neg (by rw [hpe]; exact Bool.false_ne_true)]
      cases hM : maxQ ((rest.filter (fun f => decide (bs < score f) &&
          decide (thr ≤ score f))).map score) with
      | none => rfl
      | some m =>
        obtain ⟨hmmem, -⟩ := maxQ_spec hM
        obtain ⟨g, hg, hgscore⟩ := List.mem_map.mp hmmem
        have hgmem := List.mem_filter.mp hg
        have hgconds := hgmem.2
        rw [Bool.and_eq_true] at hgconds
        show (rest.find? (fun f => decide (score f = m))).map (fun f => f.2) =
          ((e :: rest).find? (fun f => decide (score f = m))).map (fun f => f.2)
        have hfind := @List.find?_cons_of_neg _ (fun f => decide (score f = m)) e rest
          (fun hh => hcond (by
            have hEq : score e = m := of_decide_eq_true hh
            constructor
            · rw [hEq, ← hgscore]
              exact of_decide_eq_true hgconds.1
            · rw [hEq, ← hgscore]
              exact of_decide_eq_true hgconds.2))
        rw [hfind]

/-- With a positive threshold, the loop started at `best_score = 0`
computes exactly the claim's pick. -/
theorem fuzzyLoop_eq_specPick (score : String × String → ℚ) (thr : ℚ)
    (hthr : 0 < thr) (idx : List (String × String)) :
    fuzzyLoopAux score thr idx 0 none = specFuzzyPick score thr idx := by
  rw [fuzzyLoopAux_spec]
  unfold specFuzzyPick
  have hfilters : idx.filter (fun f => decide ((0 : ℚ) < score f) && decide (thr ≤ score f)) =
      idx.filter (fun f => decide (thr ≤ score f)) := by
    apply List.filter_congr
    intro f _
    by_cases h : thr ≤ score f
    · rw [decide_eq_true h, decide_eq_true (lt_of_lt_of_le hthr h)]
      rfl
    · rw [decide_eq_false h]
      simp
  rw [hfilters]

/-- C9: in EPG channel mapping, a direct-strategy match (direct equality,
feed-suffix stripping, DT/HD/SD stripping) is returned without consulting
fuzzy matching; when only fuzzy candidates exist (no direct match and no
normalized-index hit), the pick is exactly the claim's: the first
candidate attaining the highest country-boosted similarity at or above
the 0.8 threshold. -/
theorem C9_mapper_preference (sim : String → String → ℚ) (channelIds : List String)
    (nameIdx altIdx : List (String × String)) (epgId : String) :
    (∀ r, map_channel_id channelIds epgId = some r →
      batchMapOne sim channelIds nameIdx altIdx epgId = some r) ∧
    (map_channel_id channelIds epgId = none →
      (extractChannelName epgId).data ≠ [] → nameIdx ≠ [] →
      (normalizeName (extractChannelName epgId)).data ≠ [] →
      assocLookup nameIdx (normalizeName (extractChannelName epgId)) = none →
      assocLookup altIdx (normalizeName (extractChannelName epgId)) = none →
      batchMapOne sim channelIds nameIdx altIdx epgId =
        specFuzzyPick (boostedScore sim (normalizeName (extractChannelName epgId))
          (epgCountryOf epgId)) (4 / 5) nameIdx) := by
  constructor
  · intro r hr
    unfold batchMapOne
    rw [hr]
  · intro hdirect hname hidx hnorm hlook1 hlook2
    unfold batchMapOne
    rw [hdirect]
    unfold fuzzy_match_channel
    rw [if_neg (by
      rintro (h1 | h2)
      · exact hname (List.isEmpty_iff.mp h1)
      · exact hidx (List.isEmpty_iff.mp h2))]
    rw [if_neg (by
      intro h1
      exact hnorm (List.isEmpty_iff.mp h1))]
    rw [hlook1, hlook2]
    exact fuzzyLoop_eq_specPick _ _ (by norm_num) nameIdx

/-- Witness for C9: with no direct match and two fuzzy candidates scored
0 and 1, the above-threshold maximal candidate `Fox.us` wins. -/
theorem C9_witness :
    batchMapOne (fun _ k => if k = "foxnews" then 1 else 0) []
      [("cnn", "CNN.us"), ("foxnews", "Fox.us")] [] "FOXN.zz" = some "Fox.us" := by
  have h := (C9_mapper_preference (fun _ k => if k = "foxnews" then 1 else 0) []
    [("cnn", "CNN.us"), ("foxnews", "Fox.us")] [] "FOXN.zz").2
    (by decide) (by decide) (by decide) (by decide) (by decide) (by decide)
  have hn : normalizeName (extractChannelName "FOXN.zz") = "foxn" := by decide
  have hc : epgCountryOf "FOXN.zz" = some "zz" := by decide
  rw [hn, hc] at h
  rw [h]
  have hs1 : boostedScore (fun _ k => if k = "foxnews" then 1 else 0) "foxn" (some "zz")
      ("cnn", "CNN.us") = 0 := by decide
  have hs2 : boostedScore (fun _ k => if k = "foxnews" then 1 else 0) "foxn" (some "zz")
      ("foxnews", "Fox.us") = 1 := by decide
  unfold specFuzzyPick
  rw [List.filter_cons, List.filter_cons, List.filter_nil]
  rw [if_neg (by
    intro hh
    have hle := of_decide_eq_true hh
    rw [hs1] at hle
    norm_num at hle)]
  rw [if_pos (decide_eq_true (by
    rw [hs2]
    norm_num))]
  rw [List.map_cons, List.map_nil, hs2]
  rw [show maxQ [(1 : ℚ)] = some 1 from rfl]
  show Option.map (fun e => e.2)
    (List.find? (fun e => decide (boostedScore (fun _ k => if k = "foxnews" then 1 else 0)
      "foxn" (some "zz") e = 1)) [("cnn", "CNN.us"), ("foxnews", "Fox.us")]) = some "Fox.us"
  have hfind1 := @List.find?_cons_of_neg _
    (fun e => decide (boostedScore (fun _ k => if k = "foxnews" then 1 else 0) "foxn"
      (some "zz") e = 1)) ("cnn", "CNN.us") [("foxnews", "Fox.us")]
    (fun hh => by
      have h0 : (0 : ℚ) = 1 := by rw [← hs1]; exact of_decide_eq_true hh
      norm_num at h0)
  have hfind2 := @List.find?_cons_of_pos _
    (fun e => decide (boostedScore (fun _ k => if k = "foxnews" then 1 else 0) "foxn"
      (some "zz") e = 1)) ("foxnews", "Fox.us") []
    (decide_eq_true hs2)
  rw [hfind1, hfind2]
  rfl

end IPTV
